import Mathlib

/-!
Verification development for the covid-19 analysis script
(`src/covid_analysis.py`).

The script is a four-stage pandas pipeline over a single in-memory
DataFrame: load (CSV → table), `clean_dataset`, `perform_analysis`,
`create_visualizations`.  We embed the DataFrame as a `Table` (a header of
named, dtyped columns plus a list of rows of cells), embed each pandas
operation the script uses as an executable Lean function, and embed
Python's object/aliasing semantics — needed for the frame-effect claims —
as a small heap of tables addressed by natural-number references.

Numeric cells are modelled as rationals (the script treats them as exact
numbers: fills, clips, comparisons; float rounding plays no role in any
property considered here).  Dates are modelled as (year, month, day)
triples parsed from ISO `YYYY-MM-DD` strings, the format of the dataset;
`pd.to_datetime`'s many other accepted formats and its interpretation of
raw numbers as epoch offsets are outside the modelled fragment and mapped
to a parse failure.  Failure that the script converts into
`sys.exit(1)` (the Cleaner) or into a printed diagnostic plus `None`
(the Analyzer) is modelled with `Except Unit` / `Option`.
-/

namespace Covid

/-- The pandas dtype of a column, as the script's `select_dtypes` calls
distinguish them: `float64`/`int64` (numeric), `object` (text or
categorical), `datetime` (the result of `pd.to_datetime`), and `period`
(the result of `dt.to_period`). -/
inductive Dtype where
  | float64
  | int64
  | object
  | datetime
  | period
deriving DecidableEq, Repr

/-- One cell of the table: a number (rational), a string, a calendar date
(year, month, day), a calendar month period (year, month), or an absent
value (pandas NaN / NaT / None). -/
inductive Val where
  | num : ℚ → Val
  | str : String → Val
  | date : Nat → Nat → Nat → Val
  | period : Nat → Nat → Val
  | na : Val
deriving DecidableEq, Repr

namespace Val

/-- `pd.isna` on one cell: true exactly on the absent value. -/
def isNa : Val → Bool
  | .na => true
  | _ => false

/-- Extract the numeric content of a cell, if any. -/
def num? : Val → Option ℚ
  | .num q => some q
  | _ => none

/-- Extract the string content of a cell, if any. -/
def str? : Val → Option String
  | .str s => some s
  | _ => none

/-- Is the cell a number? -/
def isNum : Val → Bool
  | .num _ => true
  | _ => false

/-- Is the cell a string? -/
def isStr : Val → Bool
  | .str _ => true
  | _ => false

/-- Is the cell a date? -/
def isDate : Val → Bool
  | .date _ _ _ => true
  | _ => false

end Val

/-- A DataFrame: a header of named, dtyped columns and a list of rows.
A cell is read with `List.getD` against the absent value, matching the
loader's rectangular tables. -/
structure Table where
  header : List (String × Dtype)
  rows : List (List Val)
deriving DecidableEq, Repr

/-- The default header entry used with `List.getD` on headers. -/
def hdrD : String × Dtype := ("", Dtype.object)

instance {ε α : Type} [DecidableEq ε] [DecidableEq α] : DecidableEq (Except ε α) :=
  fun x y =>
    match x, y with
    | .ok u, .ok v =>
        if h : u = v then .isTrue (by rw [h]) else .isFalse (by simp [h])
    | .error u, .error v =>
        if h : u = v then .isTrue (by rw [h]) else .isFalse (by simp [h])
    | .ok _, .error _ => .isFalse (by simp)
    | .error _, .ok _ => .isFalse (by simp)

/-- Index of the (first) column with the given name, `none` when the
column is missing — in pandas, column selection on a missing name raises
`KeyError`. -/
def colIdx? (t : Table) (name : String) : Option Nat :=
  t.header.findIdx? (fun hd => hd.1 == name)

/-- The dtype recorded at column position `j`. -/
def dtypeAt (t : Table) (j : Nat) : Dtype :=
  (t.header.getD j hdrD).2

/-- The cells of column position `j`, one per row. -/
def colCells (t : Table) (j : Nat) : List Val :=
  t.rows.map (fun r => r.getD j Val.na)

/-- `df_clean = df_clean[df_clean[name].notna()]` — keep the rows whose
cell in the named column is present; `KeyError` (modelled as `.error`)
when the column is missing.  Used at lines 63 (`continent`) and 81
(`date`) of the source. -/
def filterByNotna (t : Table) (name : String) : Except Unit Table :=
  match colIdx? t name with
  | none => .error ()
  | some j =>
      .ok { header := t.header,
            rows := t.rows.filter (fun r => !(r.getD j Val.na).isNa) }

/-- Decimal digits to a number, `none` on a non-digit or empty input. -/
def digitsToNat? : List Char → Option Nat
  | [] => none
  | cs =>
      if cs.all Char.isDigit then
        some (cs.foldl (fun n c => 10 * n + (c.toNat - '0'.toNat)) 0)
      else none

/-- Split a character list on the dash character. -/
def splitDash : List Char → List (List Char)
  | [] => [[]]
  | c :: cs =>
      let rest := splitDash cs
      if c = '-' then [] :: rest
      else match rest with
        | [] => [[c]]
        | p :: ps => (c :: p) :: ps

/-- Length of a month in the proleptic Gregorian calendar. -/
def daysInMonth (y m : Nat) : Nat :=
  if m = 2 then
    if y % 4 = 0 ∧ (y % 100 ≠ 0 ∨ y % 400 = 0) then 29 else 28
  else if m = 4 ∨ m = 6 ∨ m = 9 ∨ m = 11 then 30
  else 31

/-- Is (y, m, d) a real calendar date? -/
def ValidYmd (y m d : Nat) : Prop :=
  1 ≤ m ∧ m ≤ 12 ∧ 1 ≤ d ∧ d ≤ daysInMonth y m

instance (y m d : Nat) : Decidable (ValidYmd y m d) := by
  unfold ValidYmd; infer_instance

/-- Parse an ISO `YYYY-MM-DD` date string, validating the calendar, as
`pd.to_datetime` does on the dataset's date column.  (`to_datetime` also
accepts other textual formats and epoch numbers; those are outside the
modelled fragment and no claim exercises them.) -/
def parseDate (s : String) : Option (Nat × Nat × Nat) :=
  match splitDash s.data with
  | [ys, ms, ds] =>
      if ys.length = 4 ∧ 1 ≤ ms.length ∧ ms.length ≤ 2 ∧ 1 ≤ ds.length ∧ ds.length ≤ 2 then
        match digitsToNat? ys, digitsToNat? ms, digitsToNat? ds with
        | some y, some m, some d =>
            if ValidYmd y m d then some (y, m, d) else none
        | _, _, _ => none
      else none
  | _ => none

/-- `pd.to_datetime` on one cell, with the default `errors='raise'`:
a parseable string becomes a date, an absent value stays absent (NaN
becomes NaT without raising), an already-parsed date is kept, and
everything else raises (`none`). -/
def toDTcell : Val → Option Val
  | .str s => (parseDate s).map (fun p => Val.date p.1 p.2.1 p.2.2)
  | .na => some .na
  | .date y m d => some (.date y m d)
  | _ => none

/-- `df_clean[name] = pd.to_datetime(df_clean[name])` (line 66 of the
source): raises (`.error`) when the column is missing or any cell fails
to parse; otherwise replaces the column's cells with their parsed dates
and sets the column's dtype to `datetime`. -/
def toDatetimeCol (t : Table) (name : String) : Except Unit Table :=
  match colIdx? t name with
  | none => .error ()
  | some j =>
      if t.rows.all (fun r => (toDTcell (r.getD j Val.na)).isSome) then
        .ok { header := t.header.set j ((t.header.getD j hdrD).1, .datetime),
              rows := t.rows.map (fun r => r.set j ((toDTcell (r.getD j Val.na)).getD .na)) }
      else .error ()

/-- One cell of `df_clean[numeric_columns].fillna(0)` (lines 70–72):
in a `float64`/`int64` column an absent cell becomes `0`, every other
cell is kept.  (`select_dtypes(include=['float64', 'int64'])` dispatches
on the column dtype.) -/
def fillCellNum (dt : Dtype) (v : Val) : Val :=
  match dt, v with
  | .float64, .na => .num 0
  | .int64, .na => .num 0
  | _, x => x

/-- One cell of `df_clean[categorical_columns].fillna('Unknown')`
(lines 74–78): in an `object` column an absent cell becomes
`"Unknown"`, every other cell is kept. -/
def fillCellObj (dt : Dtype) (v : Val) : Val :=
  match dt, v with
  | .object, .na => .str "Unknown"
  | _, x => x

/-- The numeric `fillna(0)` step, applied per cell according to the dtype
recorded in the header. -/
def fillnaNumeric (t : Table) : Table :=
  { header := t.header,
    rows := t.rows.map (fun r => List.zipWith (fun hd v => fillCellNum hd.2 v) t.header r) }

/-- The categorical `fillna('Unknown')` step, applied per cell according
to the dtype recorded in the header. -/
def fillnaObject (t : Table) : Table :=
  { header := t.header,
    rows := t.rows.map (fun r => List.zipWith (fun hd v => fillCellObj hd.2 v) t.header r) }

/-- `.clip(lower=0)` on one cell: numbers are floored at 0, absent stays
absent (pandas clip keeps NaN), and any other cell raises (`none`) —
pandas cannot compare a string or timestamp with `0`. -/
def clipCell : Val → Option Val
  | .num q => some (.num (max 0 q))
  | .na => some .na
  | _ => none

/-- `df_clean[name] = df_clean[name].clip(lower=0)` (lines 84–85):
raises when the column is missing or holds a non-numeric, non-absent
cell; otherwise floors the column at 0, keeping the dtype. -/
def clipLower0 (t : Table) (name : String) : Except Unit Table :=
  match colIdx? t name with
  | none => .error ()
  | some j =>
      if t.rows.all (fun r => (clipCell (r.getD j Val.na)).isSome) then
        .ok { header := t.header,
              rows := t.rows.map (fun r => r.set j ((clipCell (r.getD j Val.na)).getD .na)) }
      else .error ()

/-- `clean_dataset` (lines 55–92 of the source), value-level: the copy at
line 60 and the six data steps in source order.  Any exception in the
body reaches the `except` clause, which prints and calls `sys.exit(1)`;
that fatal outcome is the `.error` case. -/
def clean_dataset (t : Table) : Except Unit Table := do
  let c := t
  let c ← filterByNotna c "continent"
  let c ← toDatetimeCol c "date"
  let c := fillnaNumeric c
  let c := fillnaObject c
  let c ← filterByNotna c "date"
  let c ← clipLower0 c "total_cases"
  let c ← clipLower0 c "new_cases"
  return c

/-! ### The loader's output shape

`pd.read_csv` produces rectangular tables whose columns are `float64`
(numbers, possibly with NaN), `int64` (integers, never NaN — that dtype
cannot hold one), or `object` (strings, possibly with NaN); it never
infers a datetime or period column (the script passes no `parse_dates`).
`CsvTyped` is that postcondition, used as the hypothesis standing for
"input table" in claims quantifying over the Cleaner's inputs. -/

/-- Does a cell fit a column dtype the way `read_csv` produces them? -/
def cellFits (dt : Dtype) (v : Val) : Prop :=
  match dt with
  | .float64 => (∃ q, v = .num q) ∨ v = .na
  | .int64 => ∃ q, v = .num q
  | .object => (∃ s, v = .str s) ∨ v = .na
  | .datetime => False
  | .period => False

/-- Boolean form of `cellFits`, for executable checking. -/
def cellFitsB (dt : Dtype) (v : Val) : Bool :=
  match dt with
  | .float64 => v.isNum || v.isNa
  | .int64 => v.isNum
  | .object => v.isStr || v.isNa
  | .datetime => false
  | .period => false

instance (dt : Dtype) (v : Val) : Decidable (cellFits dt v) :=
  decidable_of_iff (cellFitsB dt v = true) (by
    cases dt <;> cases v <;>
      simp [cellFitsB, cellFits, Val.isNum, Val.isNa, Val.isStr])

/-- The table is rectangular, no column has a datetime or period dtype
(`read_csv` never infers those without `parse_dates`), and every cell
fits its column's dtype. -/
def CsvTyped (t : Table) : Prop :=
  (∀ hd ∈ t.header, hd.2 ≠ .datetime ∧ hd.2 ≠ .period) ∧
  ∀ r ∈ t.rows, r.length = t.header.length ∧
    ∀ j, j < t.header.length → cellFits (dtypeAt t j) (r.getD j Val.na)

instance (t : Table) : Decidable (CsvTyped t) := by
  unfold CsvTyped
  infer_instance

/-! ### Generic helpers: insertion sort, maxima, day numbers -/

/-- Insert into a list sorted by the boolean relation `le`. -/
def insertLe {α : Type} (le : α → α → Bool) (a : α) : List α → List α
  | [] => [a]
  | b :: bs => if le a b then a :: b :: bs else b :: insertLe le a bs

/-- Insertion sort by the boolean relation `le`, used to embed pandas
`sort_values` and the key ordering of `groupby` (no claim depends on the
ordering of ties, so the sorting algorithm's stability is immaterial). -/
def insSort {α : Type} (le : α → α → Bool) : List α → List α
  | [] => []
  | a :: as => insertLe le a (insSort le as)

/-- Maximum of a list of rationals, `none` when empty (pandas `max` with
`skipna` yields NaN on an empty or all-absent column). -/
def maxQ? : List ℚ → Option ℚ
  | [] => none
  | a :: as => some (as.foldl max a)

/-- Minimum of a list of integers, `none` when empty. -/
def minZ? : List ℤ → Option ℤ
  | [] => none
  | a :: as => some (as.foldl min a)

/-- Maximum of a list of integers, `none` when empty. -/
def maxZ? : List ℤ → Option ℤ
  | [] => none
  | a :: as => some (as.foldl max a)

/-- Ascending order on rationals as a boolean relation. -/
def qLeB (a b : ℚ) : Bool := decide (a ≤ b)

/-- Lexicographic order on character lists by code point. -/
def charsLeB : List Char → List Char → Bool
  | [], _ => true
  | _ :: _, [] => false
  | a :: as, b :: bs =>
      if a.toNat < b.toNat then true
      else if b.toNat < a.toNat then false
      else charsLeB as bs

/-- Lexicographic order on strings, the ascending key order pandas
`groupby` uses for string keys. -/
def strLeB (a b : String) : Bool := charsLeB a.data b.data

/-- Descending-by-value order on (location, value) pairs, for
`sort_values(ascending=False)`. -/
def descByValB (a b : String × ℚ) : Bool := decide (b.2 ≤ a.2)

/-- Day number of a Gregorian calendar date (Julian day number), used
only to take differences of dates in days as `Timestamp` subtraction
does. -/
def rataDie (y m d : Nat) : ℤ :=
  let a : ℤ := (14 - (m : ℤ)) / 12
  let yy : ℤ := (y : ℤ) + 4800 - a
  let mm : ℤ := (m : ℤ) + 12 * a - 3
  (d : ℤ) + (153 * mm + 2) / 5 + 365 * yy + yy / 4 - yy / 100 + yy / 400 - 32045

/-! ### Analyzer (`perform_analysis`, lines 103–138)

The Analyzer wraps its whole body in `try`/`except`: any exception is
caught, a diagnostic printed, and `None` returned.  We model the body as
an `Except Unit` computation (`computeStats`) over the column-statistic
primitives, and `perform_analysis` as its caught version returning
`Option`.  Pearson correlation needs a square root, which leaves ℚ, so
the correlation matrix is modelled by its defining data: the
pairwise-complete list of (new_cases, new_deaths) pairs — exactly the
observations `DataFrame.corr` correlates — rather than by the two
coefficient values computed from it. -/

/-- `df[name]`: the cells of a named column, `KeyError` when missing. -/
def colValsE (t : Table) (name : String) : Except Unit (List Val) :=
  match colIdx? t name with
  | none => .error ()
  | some j => .ok (colCells t j)

/-- `df[name].mean()`: raises on a non-numeric, non-absent cell, skips
absent cells, and yields NaN (`none`) when no values remain. -/
def colMeanE (t : Table) (name : String) : Except Unit (Option ℚ) := do
  let cells ← colValsE t name
  if cells.all (fun v => v.isNum || v.isNa) then
    let ns := cells.filterMap Val.num?
    .ok (if ns.length = 0 then none else some (ns.sum / (ns.length : ℚ)))
  else .error ()

/-- `df[name].median()`: same raising and NaN behaviour as `mean`; the
median of an even count of values is the mean of the two middle ones. -/
def colMedianE (t : Table) (name : String) : Except Unit (Option ℚ) := do
  let cells ← colValsE t name
  if cells.all (fun v => v.isNum || v.isNa) then
    let ns := insSort qLeB (cells.filterMap Val.num?)
    let n := ns.length
    .ok (if n = 0 then none
         else if n % 2 = 1 then some (ns.getD (n / 2) 0)
         else some ((ns.getD (n / 2 - 1) 0 + ns.getD (n / 2) 0) / 2))
  else .error ()

/-- `df[name].max()` on a numeric column: skips absent cells, NaN
(`none`) when no values remain. -/
def colMaxE (t : Table) (name : String) : Except Unit (Option ℚ) := do
  let cells ← colValsE t name
  if cells.all (fun v => v.isNum || v.isNa) then
    .ok (maxQ? (cells.filterMap Val.num?))
  else .error ()

/-- One paired observation for the correlation: kept when both cells
are numbers, dropped otherwise (pairwise NaN handling). -/
def corrCell (p : Val × Val) : Option (ℚ × ℚ) :=
  match p.1.num?, p.2.num? with
  | some x, some y => some (x, y)
  | _, _ => none

/-- The data of `df[['new_cases', 'new_deaths']].corr()` (line 114):
`KeyError` when either column is missing; otherwise the
pairwise-complete observations — the rows where both cells are numbers —
from which the Pearson matrix is computed. -/
def corrPairsE (t : Table) : Except Unit (List (ℚ × ℚ)) := do
  let c1 ← colValsE t "new_cases"
  let c2 ← colValsE t "new_deaths"
  .ok ((c1.zip c2).filterMap corrCell)

/-- `(df['date'].max() - df['date'].min()).days` (line 117): raises when
the column is missing, holds a non-date non-absent cell, or has no date
at all (the difference is then NaT and `.days` fails); otherwise the
span in days. -/
def dateRangeE (t : Table) : Except Unit ℤ := do
  let cells ← colValsE t "date"
  if cells.all (fun v => v.isDate || v.isNa) then
    let ds := cells.filterMap (fun v =>
      match v with
      | .date y m d => some (rataDie y m d)
      | _ => none)
    match maxZ? ds, minZ? ds with
    | some hi, some lo => .ok (hi - lo)
    | _, _ => .error ()
  else .error ()

/-- The mapping `perform_analysis` returns on success (its `return`
dictionary; the date range is printed but not returned). -/
structure Stats where
  mean_cases : Option ℚ
  median_cases : Option ℚ
  max_cases : Option ℚ
  total_cases : Option ℚ
  correlation : List (ℚ × ℚ)
deriving DecidableEq, Repr

/-- The body of `perform_analysis`, in source order; any step's raise is
the `.error` case. -/
def computeStats (t : Table) : Except Unit Stats := do
  let mean ← colMeanE t "new_cases"
  let median ← colMedianE t "new_cases"
  let mx ← colMaxE t "new_cases"
  let total ← colMaxE t "total_cases"
  let corr ← corrPairsE t
  let _days ← dateRangeE t
  return { mean_cases := mean, median_cases := median, max_cases := mx,
           total_cases := total, correlation := corr }

/-- `perform_analysis` (lines 103–138): the `try`/`except` turns any
raised error into a printed diagnostic and the result `None`. -/
def perform_analysis (t : Table) : Option Stats :=
  (computeStats t).toOption

/-! ### Visualizer (`create_visualizations`, lines 149–221)

The charts themselves are I/O; what the claims need is (a) the top-10
computation of chart 2 (line 177–178), (b) the fact that building
chart 3 assigns a new `month` column into the caller's DataFrame
(line 201), and (c) the conditions under which the body raises before or
after that assignment (the one `except` swallows the error, so the
table state at raise time is what the caller keeps). -/

/-- Distinct location keys of `df.groupby('location')`, in the key
order of pandas (ascending, absent keys dropped); raises (`.error`) on a
non-string, non-absent key — outside the fragment pandas handles
uniformly. -/
def locKeysE (t : Table) : Except Unit (List String) :=
  match colIdx? t "location" with
  | none => .error ()
  | some j =>
      if (colCells t j).all (fun v => v.isStr || v.isNa) then
        .ok (insSort strLeB ((colCells t j).filterMap Val.str?).dedup)
      else .error ()

/-- The maximum `total_cases` over the rows of one location group;
raises when a group cell is non-numeric or the required columns are
missing. -/
def locGroup (t : Table) (jl jt : Nat) (k : String) : List Val :=
  (t.rows.filter (fun r => r.getD jl Val.na == .str k)).map
    (fun r => r.getD jt Val.na)

def locMaxE (t : Table) (k : String) : Except Unit ℚ :=
  match colIdx? t "location", colIdx? t "total_cases" with
  | some jl, some jt =>
      if (locGroup t jl jt k).all Val.isNum then
        match maxQ? ((locGroup t jl jt k).filterMap Val.num?) with
        | some m => .ok m
        | none => .error ()
      else .error ()
  | _, _ => .error ()

/-- `df.groupby('location')['total_cases'].max().sort_values(ascending=False).head(10)`
(lines 177–178): per-location maxima, sorted descending by value, first
ten. -/
def topCountriesE (t : Table) : Except Unit (List (String × ℚ)) := do
  let keys ← locKeysE t
  if keys.all (fun k => (locMaxE t k).isOk) then
    let pairs := keys.map (fun k => (k, ((locMaxE t k).toOption).getD 0))
    .ok ((insSort descByValB pairs).take 10)
  else .error ()

/-- `df['date'].dt.to_period('M')` (line 201): each date becomes its
calendar month, NaT stays absent, anything else raises. -/
def monthValsE (t : Table) : Except Unit (List Val) :=
  match colIdx? t "date" with
  | none => .error ()
  | some j =>
      if (colCells t j).all (fun v => v.isDate || v.isNa) then
        .ok ((colCells t j).map (fun v =>
          match v with
          | .date y m _ => Val.period y m
          | _ => Val.na))
      else .error ()

/-- `df['month'] = vals`: overwrite the `month` column if it exists,
else append it; either way its dtype becomes `period`. -/
def setMonthCol (t : Table) (vals : List Val) : Table :=
  match colIdx? t "month" with
  | some j =>
      { header := t.header.set j ("month", .period),
        rows := List.zipWith (fun r v => r.set j v) t.rows vals }
  | none =>
      { header := t.header ++ [("month", .period)],
        rows := List.zipWith (fun r v => r ++ [v]) t.rows vals }

/-- Does building and plotting chart 1
(`df.groupby('date')['new_cases'].sum()`, lines 160–173) go through
without raising?  Modelled on the typing of the two columns involved;
the rendering itself is I/O outside the embedding. -/
def globalChartOk (t : Table) : Bool :=
  match colIdx? t "date", colIdx? t "new_cases" with
  | some jd, some jn =>
      (colCells t jd).all (fun v => v.isDate || v.isNa) &&
      (colCells t jn).all (fun v => v.isNum || v.isNa)
  | _, _ => false

/-- The state of the caller's DataFrame after `create_visualizations`
returns: the body mutates it exactly once, at line 201 (`df['month'] =
df['date'].dt.to_period('M')`); if anything raises before that line the
single `except` swallows the error with the table untouched, and
anything after line 201 cannot undo the assignment. -/
def createVisRunTable (t : Table) : Table :=
  if globalChartOk t then
    if (topCountriesE t).isOk then
      match monthValsE t with
      | .ok vals => setMonthCol t vals
      | .error _ => t
    else t
  else t

/-! ### Python object semantics: a heap of DataFrames

The frame-effect claims are about aliasing: `clean_dataset` copies its
argument before mutating (`df_clean = df.copy()`, line 60), while
`create_visualizations` assigns a column into its argument directly.  A
`Heap` is a list of DataFrame objects; a variable holds a reference
(index).  `df_clean = <new frame>` allocates, `df_clean[...] = ...`
stores in place. -/

/-- The store: one cell per live DataFrame object. -/
abbrev Heap := List Table

/-- Allocate a fresh object holding `t`. -/
def halloc (h : Heap) (t : Table) : Heap × Nat := (h ++ [t], h.length)

/-- `clean_dataset` at the object level.  Line 60 copies the argument
into a fresh object; the two row filters and the final return rebind
`df_clean` to new frames (pandas filtering returns a new object); the
`to_datetime`, `fillna` and `clip` assignments store into the object
`df_clean` currently names.  The caller's object `r` is never stored
to. -/
def clean_datasetH (h : Heap) (r : Nat) : Except Unit (Heap × Nat) :=
  match h[r]? with
  | none => .error ()
  | some df =>
      let p1 := halloc h df
      match filterByNotna df "continent" with
      | .error _ => .error ()
      | .ok t1 =>
          let p2 := halloc p1.1 t1
          match toDatetimeCol t1 "date" with
          | .error _ => .error ()
          | .ok t2 =>
              let h3 := p2.1.set p2.2 t2
              let t3 := fillnaNumeric t2
              let h4 := h3.set p2.2 t3
              let t4 := fillnaObject t3
              let h5 := h4.set p2.2 t4
              match filterByNotna t4 "date" with
              | .error _ => .error ()
              | .ok t5 =>
                  let p3 := halloc h5 t5
                  match clipLower0 t5 "total_cases" with
                  | .error _ => .error ()
                  | .ok t6 =>
                      let h7 := p3.1.set p3.2 t6
                      match clipLower0 t6 "new_cases" with
                      | .error _ => .error ()
                      | .ok t7 => .ok (h7.set p3.2 t7, p3.2)

/-- `perform_analysis` at the object level: the body only reads `df`
(means, medians, maxima, `corr`, date extrema) — it contains no store —
so the heap passes through unchanged. -/
def perform_analysisH (h : Heap) (r : Nat) : Heap × Option Stats :=
  (h, match h[r]? with
      | some t => perform_analysis t
      | none => none)

/-- `create_visualizations` at the object level: the caller's object is
replaced by its state after the body's single store (see
`createVisRunTable`). -/
def create_visualizationsH (h : Heap) (r : Nat) : Heap :=
  match h[r]? with
  | none => h
  | some t => h.set r (createVisRunTable t)

/-! ### Names and invariant predicates -/

/-- The column names of a table, in order. -/
def colNames (t : Table) : List String := t.header.map Prod.fst

/-- No row has an absent cell at column position `j`. -/
def ColNonNa (t : Table) (j : Nat) : Prop :=
  ∀ r ∈ t.rows, (r.getD j Val.na).isNa = false

/-- Every row has a date cell at column position `j`. -/
def ColDates (t : Table) (j : Nat) : Prop :=
  ∀ r ∈ t.rows, (r.getD j Val.na).isDate = true

/-- Every row has a date or an absent cell at column position `j`. -/
def ColDateOrNa (t : Table) (j : Nat) : Prop :=
  ∀ r ∈ t.rows, (r.getD j Val.na).isDate = true ∨ r.getD j Val.na = .na

/-- Every row's cell at column position `j` is a non-negative number or
absent — the state `.clip(lower=0)` leaves a column in. -/
def ColClipped (t : Table) (j : Nat) : Prop :=
  ∀ r ∈ t.rows, (∃ q, r.getD j Val.na = .num q ∧ 0 ≤ q) ∨ r.getD j Val.na = .na

/-- No row is wider than the header. -/
def RowsFit (t : Table) : Prop :=
  ∀ r ∈ t.rows, r.length ≤ t.header.length

/-- "Every cell of a dtype-selected column within the row's extent is
present", for a dtype selector `D`. -/
def DFilled (D : Dtype → Prop) (t : Table) : Prop :=
  ∀ r ∈ t.rows, ∀ j, j < r.length → D (dtypeAt t j) → (r.getD j Val.na).isNa = false

/-- Within each row's extent, cells of numeric-dtype columns are
present — the state the numeric `fillna(0)` leaves the table in. -/
def NumFilled (t : Table) : Prop :=
  DFilled (fun dt => dt = .float64 ∨ dt = .int64) t

/-- Within each row's extent, cells of object-dtype columns are
present — the state the categorical `fillna('Unknown')` leaves the
table in. -/
def ObjFilled (t : Table) : Prop :=
  DFilled (fun dt => dt = .object) t

/-- Every row's cell at column position `j` satisfies `P`. -/
def ColP (P : Val → Prop) (t : Table) (j : Nat) : Prop :=
  ∀ r ∈ t.rows, P (r.getD j Val.na)

/-- All rows have exactly the header's width. -/
def Rect (t : Table) : Prop :=
  ∀ r ∈ t.rows, r.length = t.header.length

instance (t : Table) : Decidable (Rect t) := by
  unfold Rect
  infer_instance

/-! ### Concrete tables used to witness the claims -/

/-- The spec's two-row scenario table: a null-continent `World` row and
a `Europe`/`France` row.  (The scenario lists only the relevant fields;
a `new_cases` column with absent values is included because the real
Cleaner reads it — `df_clean['new_cases']` — and would otherwise raise
`KeyError`.) -/
def ex5 : Table :=
  { header := [("continent", .object), ("location", .object), ("date", .object),
               ("total_cases", .float64), ("new_cases", .float64)],
    rows := [[.na, .str "World", .str "2021-01-01", .num 100, .na],
             [.str "Europe", .str "France", .str "2021-01-01", .num 50, .na]] }

/-- The Cleaner's output on `ex5`: only the France row survives. -/
def ex5Out : Table :=
  { header := [("continent", .object), ("location", .object), ("date", .datetime),
               ("total_cases", .float64), ("new_cases", .float64)],
    rows := [[.str "Europe", .str "France", .date 2021 1 1, .num 50, .num 0]] }

/-- A table whose first row has a date string that fails to parse. -/
def exC1bad : Table :=
  { header := [("continent", .object), ("location", .object), ("date", .object),
               ("total_cases", .float64), ("new_cases", .float64)],
    rows := [[.str "Europe", .str "France", .str "not-a-date", .num 50, .num 5],
             [.str "Europe", .str "Spain", .str "2021-01-02", .num 40, .num 4]] }

/-- A table whose first row has an absent date. -/
def exC1na : Table :=
  { header := [("continent", .object), ("location", .object), ("date", .object),
               ("total_cases", .float64), ("new_cases", .float64)],
    rows := [[.str "Europe", .str "France", .na, .num 50, .num 5],
             [.str "Europe", .str "Spain", .str "2021-01-02", .num 40, .num 4]] }

/-- The Cleaner's output on `exC1na`: the absent-date row is dropped. -/
def exC1naOut : Table :=
  { header := [("continent", .object), ("location", .object), ("date", .datetime),
               ("total_cases", .float64), ("new_cases", .float64)],
    rows := [[.str "Europe", .str "Spain", .date 2021 1 2, .num 40, .num 4]] }

/-- The spec's negative-clipping scenario: total_cases = −5 and
new_cases = −3 on an otherwise valid row. -/
def exNeg : Table :=
  { header := [("continent", .object), ("location", .object), ("date", .object),
               ("total_cases", .float64), ("new_cases", .float64)],
    rows := [[.str "Europe", .str "France", .str "2021-01-01", .num (-5), .num (-3)]] }

/-- The Cleaner's output on `exNeg`: the row is kept with both values
floored to 0. -/
def exNegOut : Table :=
  { header := [("continent", .object), ("location", .object), ("date", .datetime),
               ("total_cases", .float64), ("new_cases", .float64)],
    rows := [[.str "Europe", .str "France", .date 2021 1 1, .num 0, .num 0]] }

/-- The single row of `exNegOut`. -/
def exNegRow : List Val :=
  [.str "Europe", .str "France", .date 2021 1 1, .num 0, .num 0]

/-- The spec's missing-fill scenario: a row with an absent numeric
`reproduction_rate` and an absent categorical `tests_units`. -/
def exC6 : Table :=
  { header := [("continent", .object), ("location", .object), ("date", .object),
               ("total_cases", .float64), ("new_cases", .float64),
               ("reproduction_rate", .float64), ("tests_units", .object)],
    rows := [[.str "Asia", .str "Xland", .str "2021-03-04", .num 7, .num 2, .na, .na]] }

/-- The Cleaner's output on `exC6`: the absent number becomes 0 and the
absent text becomes `"Unknown"`. -/
def exC6Out : Table :=
  { header := [("continent", .object), ("location", .object), ("date", .datetime),
               ("total_cases", .float64), ("new_cases", .float64),
               ("reproduction_rate", .float64), ("tests_units", .object)],
    rows := [[.str "Asia", .str "Xland", .date 2021 3 4, .num 7, .num 2,
              .num 0, .str "Unknown"]] }

/-- The single row of `exC6Out`. -/
def exC6Row : List Val :=
  [.str "Asia", .str "Xland", .date 2021 3 4, .num 7, .num 2, .num 0, .str "Unknown"]

/-- A cleaned-shaped table for exercising the Visualizer. -/
def tviz : Table :=
  { header := [("location", .object), ("date", .datetime),
               ("total_cases", .float64), ("new_cases", .float64)],
    rows := [[.str "France", .date 2021 1 1, .num 50, .num 5]] }

/-- A two-location table for the top-10 computation. -/
def exViz2 : Table :=
  { header := [("location", .object), ("total_cases", .float64)],
    rows := [[.str "Alba", .num 5], [.str "Bria", .num 7], [.str "Alba", .num 3]] }

/-- A two-row raw table with a nullable `new_deaths` column. -/
def exRaw10 : Table :=
  { header := [("continent", .object), ("location", .object), ("date", .object),
               ("total_cases", .float64), ("new_cases", .float64),
               ("new_deaths", .float64)],
    rows := [[.str "Europe", .str "France", .str "2021-01-01", .num 50, .num 5, .na],
             [.str "Europe", .str "France", .str "2021-01-02", .num 60, .num 10, .num 1]] }

/-- The Cleaner's output on `exRaw10`: the absent `new_deaths` is 0. -/
def exRaw10Out : Table :=
  { header := [("continent", .object), ("location", .object), ("date", .datetime),
               ("total_cases", .float64), ("new_cases", .float64),
               ("new_deaths", .float64)],
    rows := [[.str "Europe", .str "France", .date 2021 1 1, .num 50, .num 5, .num 0],
             [.str "Europe", .str "France", .date 2021 1 2, .num 60, .num 10, .num 1]] }


/-! ### List-level lemmas -/

theorem set_getD_self {α : Type} (d : α) :
    ∀ (l : List α) (j : Nat), l.set j (l.getD j d) = l := by
  intro l
  induction l with
  | nil => intro j; rfl
  | cons a as ih =>
      intro j
      cases j with
      | zero => rfl
      | succ k => simpa [List.set, List.getD] using ih k

theorem set_of_length_le {α : Type} :
    ∀ (l : List α) (j : Nat), l.length ≤ j → ∀ v, l.set j v = l := by
  intro l
  induction l with
  | nil => intro j _ v; rfl
  | cons a as ih =>
      intro j hj v
      cases j with
      | zero => simp at hj
      | succ k => simpa [List.set] using ih k (by simpa using hj) v

theorem getD_set_ne {α : Type} (d : α) (l : List α) {i j : Nat} (h : i ≠ j) (v : α) :
    (l.set i v).getD j d = l.getD j d := by
  simp [List.getD_eq_getElem?_getD, List.getElem?_set_ne h]

theorem getD_set_lt {α : Type} (d : α) (l : List α) {j : Nat} (h : j < l.length) (v : α) :
    (l.set j v).getD j d = v := by
  simp [List.getD_eq_getElem?_getD, List.getElem?_set_self h]

theorem getD_set_ge {α : Type} (d : α) (l : List α) {j : Nat} (h : l.length ≤ j) (v : α) :
    (l.set j v).getD j d = d := by
  rw [set_of_length_le l j h v]
  simp [List.getD_eq_getElem?_getD, List.getElem?_eq_none h]

theorem getD_zipWith {α β γ : Type} (f : α → β → γ) (dα : α) (dβ : β) (dγ : γ) :
    ∀ (as : List α) (bs : List β) (j : Nat),
      (List.zipWith f as bs).getD j dγ =
        if j < as.length ∧ j < bs.length then f (as.getD j dα) (bs.getD j dβ) else dγ := by
  intro as
  induction as with
  | nil => intro bs j; simp
  | cons a as ih =>
      intro bs j
      cases bs with
      | nil => simp
      | cons b bs =>
          cases j with
          | zero => simp [List.getD]
          | succ k =>
              simp only [List.zipWith, List.getD_cons_succ, ih bs k, List.length_cons]
              have : (k < as.length ∧ k < bs.length) ↔
                  (k + 1 < as.length + 1 ∧ k + 1 < bs.length + 1) := by omega
              by_cases hc : k < as.length ∧ k < bs.length
              · rw [if_pos hc, if_pos (this.mp hc)]
              · rw [if_neg hc, if_neg (fun hc2 => hc (this.mpr hc2))]


theorem zipWith_eq_self {α : Type} (dα : α) (f : α → Val → Val) :
    ∀ (hd : List α) (r : List Val), r.length ≤ hd.length →
      (∀ j, j < r.length → f (hd.getD j dα) (r.getD j Val.na) = r.getD j Val.na) →
      List.zipWith f hd r = r := by
  intro hd
  induction hd with
  | nil =>
      intro r hlen _
      cases r with
      | nil => rfl
      | cons v vs => simp at hlen
  | cons a as ih =>
      intro r hlen hcell
      cases r with
      | nil => simp
      | cons v vs =>
          simp only [List.zipWith, List.cons.injEq]
          constructor
          · simpa using hcell 0 (by simp)
          · exact ih vs (by simpa using hlen)
              (fun j hj => by simpa using hcell (j + 1) (by simpa using hj))

/-! ### Column-name and column-index lemmas -/

theorem colIdx?_eq_names (t : Table) (name : String) :
    colIdx? t name = (colNames t).findIdx? (fun s => s == name) := by
  simp only [colIdx?, colNames, List.findIdx?_map]
  rfl

theorem colIdx?_congr {t u : Table} (h : colNames t = colNames u) (name : String) :
    colIdx? t name = colIdx? u name := by
  rw [colIdx?_eq_names, colIdx?_eq_names, h]

theorem colIdx?_lt {t : Table} {name : String} {j : Nat} (h : colIdx? t name = some j) :
    j < t.header.length := by
  simp only [colIdx?, List.findIdx?_eq_some_iff_getElem] at h
  exact h.1

theorem nameAt_of_colIdx? {t : Table} {name : String} {j : Nat}
    (h : colIdx? t name = some j) : (t.header.getD j hdrD).1 = name := by
  simp only [colIdx?, List.findIdx?_eq_some_iff_getElem] at h
  obtain ⟨hlt, hp, _⟩ := h
  rw [List.getD_eq_getElem _ _ hlt]
  exact eq_of_beq hp

theorem colIdx?_ne {t : Table} {n1 n2 : String} {j1 j2 : Nat}
    (h1 : colIdx? t n1 = some j1) (h2 : colIdx? t n2 = some j2) (hn : n1 ≠ n2) :
    j1 ≠ j2 := by
  intro hj
  apply hn
  rw [← nameAt_of_colIdx? h1, ← nameAt_of_colIdx? h2, hj]

theorem names_set_dtype (l : List (String × Dtype)) (j : Nat) (dt : Dtype) :
    (l.set j ((l.getD j hdrD).1, dt)).map Prod.fst = l.map Prod.fst := by
  rcases Nat.lt_or_ge j l.length with hlt | hge
  · rw [List.map_set]
    have : (l.getD j hdrD).1 = (l.map Prod.fst).getD j hdrD.1 := by
      rw [List.getD_eq_getElem _ _ hlt,
          List.getD_eq_getElem _ _ (by simpa using hlt), List.getElem_map]
    rw [this, set_getD_self]
  · rw [set_of_length_le l j hge]

/-! ### Inversion lemmas for the Cleaner's steps -/

theorem exceptBind_ok {α β : Type} {x : Except Unit α} {f : α → Except Unit β} {b : β} :
    Except.bind x f = .ok b ↔ ∃ a, x = .ok a ∧ f a = .ok b := by
  cases x <;> simp [Except.bind]

theorem filterByNotna_ok {t u : Table} {name : String} (h : filterByNotna t name = .ok u) :
    ∃ j, colIdx? t name = some j ∧ u.header = t.header ∧
      u.rows = t.rows.filter (fun r => !(r.getD j Val.na).isNa) := by
  unfold filterByNotna at h
  split at h
  · exact absurd h (by simp)
  · rename_i j hj
    refine ⟨j, hj, ?_, ?_⟩ <;> cases h <;> rfl

theorem toDatetimeCol_ok {t u : Table} {name : String} (h : toDatetimeCol t name = .ok u) :
    ∃ j, colIdx? t name = some j ∧
      (∀ r ∈ t.rows, (toDTcell (r.getD j Val.na)).isSome = true) ∧
      u.header = t.header.set j ((t.header.getD j hdrD).1, .datetime) ∧
      u.rows = t.rows.map (fun r => r.set j ((toDTcell (r.getD j Val.na)).getD .na)) := by
  unfold toDatetimeCol at h
  split at h
  · exact absurd h (by simp)
  · rename_i j hj
    split at h
    · rename_i hall
      refine ⟨j, hj, by simpa [List.all_eq_true] using hall, ?_, ?_⟩ <;>
        cases h <;> rfl
    · exact absurd h (by simp)

theorem clipLower0_ok {t u : Table} {name : String} (h : clipLower0 t name = .ok u) :
    ∃ j, colIdx? t name = some j ∧
      (∀ r ∈ t.rows, (clipCell (r.getD j Val.na)).isSome = true) ∧
      u.header = t.header ∧
      u.rows = t.rows.map (fun r => r.set j ((clipCell (r.getD j Val.na)).getD .na)) := by
  unfold clipLower0 at h
  split at h
  · exact absurd h (by simp)
  · rename_i j hj
    split at h
    · rename_i hall
      refine ⟨j, hj, by simpa [List.all_eq_true] using hall, ?_, ?_⟩ <;>
        cases h <;> rfl
    · exact absurd h (by simp)

theorem clean_ok_iff {t c : Table} :
    clean_dataset t = .ok c ↔ ∃ t1 t2 t5 t6,
      filterByNotna t "continent" = .ok t1 ∧
      toDatetimeCol t1 "date" = .ok t2 ∧
      filterByNotna (fillnaObject (fillnaNumeric t2)) "date" = .ok t5 ∧
      clipLower0 t5 "total_cases" = .ok t6 ∧
      clipLower0 t6 "new_cases" = .ok c := by
  unfold clean_dataset
  simp only [bind, exceptBind_ok, pure, Except.pure, Except.ok.injEq]
  constructor
  · rintro ⟨t1, h1, t2, h2, t5, h5, t6, h6, c7, h7, rfl⟩
    exact ⟨t1, t2, t5, t6, h1, h2, h5, h6, h7⟩
  · rintro ⟨t1, t2, t5, t6, h1, h2, h5, h6, h7⟩
    exact ⟨t1, h1, t2, h2, t5, h5, t6, h6, c, h7, rfl⟩

/-! ### Cell-level helper lemmas -/

theorem map_eq_self {α : Type} {f : α → α} :
    ∀ {l : List α}, (∀ a ∈ l, f a = a) → l.map f = l := by
  intro l
  induction l with
  | nil => intro _; rfl
  | cons a as ih =>
      intro h
      simp only [List.map_cons, List.cons.injEq]
      exact ⟨h a (by simp), ih (fun b hb => h b (by simp [hb]))⟩

theorem getD_set_cases (r : List Val) (j k : Nat) (w : Val) :
    (r.set j w).getD k Val.na =
      if j = k ∧ j < r.length then w else r.getD k Val.na := by
  by_cases hjk : j = k
  · subst hjk
    rcases Nat.lt_or_ge j r.length with hlt | hge
    · rw [getD_set_lt _ _ hlt, if_pos ⟨rfl, hlt⟩]
    · rw [set_of_length_le _ _ hge, if_neg (by omega)]
  · rw [getD_set_ne _ _ hjk, if_neg (by tauto)]

theorem getD_of_length_le {α : Type} (d : α) {l : List α} {j : Nat}
    (h : l.length ≤ j) : l.getD j d = d := by
  simp [List.getD_eq_getElem?_getD, List.getElem?_eq_none h]

theorem toDTcell_nonNa {v w : Val} (h : toDTcell v = some w) (hv : v.isNa = false) :
    w.isNa = false := by
  cases v with
  | str s =>
      cases hp : parseDate s <;> simp [toDTcell, hp] at h
      cases h; rfl
  | na => simp [Val.isNa] at hv
  | date y m d => simp [toDTcell] at h; cases h; rfl
  | num q => simp [toDTcell] at h
  | period a b => simp [toDTcell] at h

theorem toDTcell_dateOrNa {v w : Val} (h : toDTcell v = some w) :
    w.isDate = true ∨ w = .na := by
  cases v with
  | str s =>
      cases hp : parseDate s <;> simp [toDTcell, hp] at h
      cases h; simp [Val.isDate]
  | na => simp [toDTcell] at h; simp [← h]
  | date y m d => simp [toDTcell] at h; simp [← h, Val.isDate]
  | num q => simp [toDTcell] at h
  | period a b => simp [toDTcell] at h

theorem toDTcell_isSome_ne_na {v : Val} (hv : v.isNa = false) (hd : v.isDate = true) :
    toDTcell v = some v := by
  cases v <;> simp [Val.isNa, Val.isDate] at hv hd <;> simp [toDTcell]

theorem clipCell_some {v w : Val} (h : clipCell v = some w) :
    (∃ q, v = .num q ∧ w = .num (max 0 q)) ∨ (v = .na ∧ w = .na) := by
  cases v <;> simp [clipCell] at h
  · exact Or.inl ⟨_, rfl, h.symm⟩
  · exact Or.inr ⟨rfl, h.symm⟩

theorem fillCellNum_of_nonNa {dt : Dtype} {v : Val} (h : v.isNa = false) :
    fillCellNum dt v = v := by
  cases dt <;> cases v <;> simp [Val.isNa] at h ⊢ <;> rfl

theorem fillCellObj_of_nonNa {dt : Dtype} {v : Val} (h : v.isNa = false) :
    fillCellObj dt v = v := by
  cases dt <;> cases v <;> simp [Val.isNa] at h ⊢ <;> rfl

theorem fillCellNum_isNa_false {dt : Dtype} {v : Val} (h : v.isNa = false) :
    (fillCellNum dt v).isNa = false := by
  rw [fillCellNum_of_nonNa h]; exact h

theorem fillCellObj_isNa_false {dt : Dtype} {v : Val} (h : v.isNa = false) :
    (fillCellObj dt v).isNa = false := by
  rw [fillCellObj_of_nonNa h]; exact h

theorem fillCellNum_numeric_nonNa {dt : Dtype} (v : Val)
    (hdt : dt = .float64 ∨ dt = .int64) : (fillCellNum dt v).isNa = false := by
  rcases hdt with rfl | rfl <;> cases v <;> simp [fillCellNum, Val.isNa]

theorem fillCellObj_object_nonNa (v : Val) :
    (fillCellObj .object v).isNa = false := by
  cases v <;> simp [fillCellObj, Val.isNa]

theorem fillCellNum_not_numeric {dt : Dtype} (v : Val)
    (hdt : ¬(dt = .float64 ∨ dt = .int64)) : fillCellNum dt v = v := by
  cases dt <;> cases v <;> simp at hdt ⊢ <;> rfl

theorem fillCellObj_not_object {dt : Dtype} (v : Val) (hdt : dt ≠ .object) :
    fillCellObj dt v = v := by
  cases dt <;> cases v <;> simp at hdt ⊢ <;> rfl

/-- The cell of a `fillnaNumeric` result row. -/
theorem fillnaNumeric_cell (t : Table) (r : List Val) (k : Nat) :
    (List.zipWith (fun hd v => fillCellNum hd.2 v) t.header r).getD k Val.na =
      if k < t.header.length ∧ k < r.length then
        fillCellNum (dtypeAt t k) (r.getD k Val.na) else Val.na := by
  rw [getD_zipWith _ hdrD Val.na Val.na]
  rfl

/-- The cell of a `fillnaObject` result row. -/
theorem fillnaObject_cell (t : Table) (r : List Val) (k : Nat) :
    (List.zipWith (fun hd v => fillCellObj hd.2 v) t.header r).getD k Val.na =
      if k < t.header.length ∧ k < r.length then
        fillCellObj (dtypeAt t k) (r.getD k Val.na) else Val.na := by
  rw [getD_zipWith _ hdrD Val.na Val.na]
  rfl

/-! ### Preservation of the column invariants along the Cleaner's steps -/

theorem ColNonNa_subset {t u : Table} {j : Nat}
    (hsub : ∀ r ∈ u.rows, r ∈ t.rows) (h : ColNonNa t j) : ColNonNa u j :=
  fun r hr => h r (hsub r hr)

theorem ColNonNa_filterSelf {t u : Table} {name : String} {j : Nat}
    (h : filterByNotna t name = .ok u) (hj : colIdx? t name = some j) :
    ColNonNa u j := by
  obtain ⟨j2, hj2, _, hr⟩ := filterByNotna_ok h
  rw [hj] at hj2
  cases hj2
  intro r hrm
  rw [hr] at hrm
  have := (List.mem_filter.mp hrm).2
  simpa using this

theorem ColNonNa_toDT {t u : Table} {name : String} {k : Nat}
    (h : toDatetimeCol t name = .ok u) (hk : ColNonNa t k) : ColNonNa u k := by
  obtain ⟨j, _, hall, _, hr⟩ := toDatetimeCol_ok h
  intro r2 hr2
  rw [hr] at hr2
  obtain ⟨r, hrm, rfl⟩ := List.mem_map.mp hr2
  rw [getD_set_cases]
  split
  · rename_i hc
    obtain ⟨rfl, _⟩ := hc
    have hg := hall r hrm
    cases hw : toDTcell (r.getD j Val.na) with
    | none => rw [hw] at hg; simp at hg
    | some w => simp [hw]; exact toDTcell_nonNa hw (hk r hrm)
  · exact hk r hrm

theorem ColNonNa_fillNum {t : Table} {k : Nat} (hk : k < t.header.length)
    (h : ColNonNa t k) : ColNonNa (fillnaNumeric t) k := by
  intro r2 hr2
  simp only [fillnaNumeric, List.mem_map] at hr2
  obtain ⟨r, hrm, rfl⟩ := hr2
  rw [fillnaNumeric_cell]
  split
  · exact fillCellNum_isNa_false (h r hrm)
  · rename_i hc
    have hge : r.length ≤ k := by omega
    have := h r hrm
    rw [getD_of_length_le _ hge] at this
    simp [Val.isNa] at this

theorem ColNonNa_fillObj {t : Table} {k : Nat} (hk : k < t.header.length)
    (h : ColNonNa t k) : ColNonNa (fillnaObject t) k := by
  intro r2 hr2
  simp only [fillnaObject, List.mem_map] at hr2
  obtain ⟨r, hrm, rfl⟩ := hr2
  rw [fillnaObject_cell]
  split
  · exact fillCellObj_isNa_false (h r hrm)
  · rename_i hc
    have hge : r.length ≤ k := by omega
    have := h r hrm
    rw [getD_of_length_le _ hge] at this
    simp [Val.isNa] at this

theorem ColNonNa_clip {t u : Table} {name : String} {k : Nat}
    (h : clipLower0 t name = .ok u) (hk : ColNonNa t k) : ColNonNa u k := by
  obtain ⟨j, _, hall, _, hr⟩ := clipLower0_ok h
  intro r2 hr2
  rw [hr] at hr2
  obtain ⟨r, hrm, rfl⟩ := List.mem_map.mp hr2
  rw [getD_set_cases]
  split
  · rename_i hc
    obtain ⟨rfl, _⟩ := hc
    have hg := hall r hrm
    cases hw : clipCell (r.getD j Val.na) with
    | none => rw [hw] at hg; simp at hg
    | some w =>
        simp only [hw, Option.getD_some]
        rcases clipCell_some hw with ⟨q, _, rfl⟩ | ⟨hv, rfl⟩
        · rfl
        · have := hk r hrm
          rw [hv] at this
          simp [Val.isNa] at this
  · exact hk r hrm

theorem ColDateOrNa_toDT {t u : Table} {name : String} {j : Nat}
    (h : toDatetimeCol t name = .ok u) (hj : colIdx? t name = some j) :
    ColDateOrNa u j := by
  obtain ⟨j2, hj2, hall, _, hr⟩ := toDatetimeCol_ok h
  rw [hj] at hj2
  cases hj2
  intro r2 hr2
  rw [hr] at hr2
  obtain ⟨r, hrm, rfl⟩ := List.mem_map.mp hr2
  rw [getD_set_cases]
  split
  · have hg := hall r hrm
    cases hw : toDTcell (r.getD j Val.na) with
    | none => rw [hw] at hg; simp at hg
    | some w => simp only [hw, Option.getD_some]; exact toDTcell_dateOrNa hw
  · rename_i hc
    right
    rcases Nat.lt_or_ge j r.length with hlt | hge
    · exact absurd ⟨rfl, hlt⟩ hc
    · exact getD_of_length_le _ hge

theorem ColDateOrNa_fillNum {t : Table} {j : Nat} (hdt : dtypeAt t j = .datetime)
    (h : ColDateOrNa t j) : ColDateOrNa (fillnaNumeric t) j := by
  intro r2 hr2
  simp only [fillnaNumeric, List.mem_map] at hr2
  obtain ⟨r, hrm, rfl⟩ := hr2
  rw [fillnaNumeric_cell]
  split
  · rw [hdt, fillCellNum_not_numeric _ (by simp)]
    exact h r hrm
  · right; rfl

theorem ColDateOrNa_fillObj {t : Table} {j : Nat} (hdt : dtypeAt t j = .datetime)
    (h : ColDateOrNa t j) : ColDateOrNa (fillnaObject t) j := by
  intro r2 hr2
  simp only [fillnaObject, List.mem_map] at hr2
  obtain ⟨r, hrm, rfl⟩ := hr2
  rw [fillnaObject_cell]
  split
  · rw [hdt, fillCellObj_not_object _ (by simp)]
    exact h r hrm
  · right; rfl

theorem ColDates_filterNotna {t u : Table} {name : String} {j : Nat}
    (h : filterByNotna t name = .ok u) (hj : colIdx? t name = some j)
    (hdn : ColDateOrNa t j) : ColDates u j := by
  obtain ⟨j2, hj2, _, hr⟩ := filterByNotna_ok h
  rw [hj] at hj2
  cases hj2
  intro r hrm
  rw [hr] at hrm
  obtain ⟨hrt, hpred⟩ := List.mem_filter.mp hrm
  rcases hdn r hrt with hd | hna
  · exact hd
  · rw [hna] at hpred; simp [Val.isNa] at hpred

theorem ColDates_clip {t u : Table} {name : String} {k : Nat}
    (h : clipLower0 t name = .ok u) (hd : ColDates t k) : ColDates u k := by
  obtain ⟨j, _, hall, _, hr⟩ := clipLower0_ok h
  intro r2 hr2
  rw [hr] at hr2
  obtain ⟨r, hrm, rfl⟩ := List.mem_map.mp hr2
  by_cases hjk : j = k
  · subst hjk
    have hg := hall r hrm
    have hdate := hd r hrm
    cases hv : r.getD j Val.na <;> rw [hv] at hg hdate <;>
      simp [clipCell, Val.isDate] at hg hdate
  · rw [getD_set_cases, if_neg (by tauto)]
    exact hd r hrm

theorem ColClipped_clipSelf {t u : Table} {name : String} {j : Nat}
    (h : clipLower0 t name = .ok u) (hj : colIdx? t name = some j) :
    ColClipped u j := by
  obtain ⟨j2, hj2, hall, _, hr⟩ := clipLower0_ok h
  rw [hj] at hj2
  cases hj2
  intro r2 hr2
  rw [hr] at hr2
  obtain ⟨r, hrm, rfl⟩ := List.mem_map.mp hr2
  rw [getD_set_cases]
  split
  · have hg := hall r hrm
    cases hw : clipCell (r.getD j Val.na) with
    | none => rw [hw] at hg; simp at hg
    | some w =>
        simp only [hw, Option.getD_some]
        rcases clipCell_some hw with ⟨q, _, rfl⟩ | ⟨_, rfl⟩
        · exact Or.inl ⟨max 0 q, rfl, le_max_left 0 q⟩
        · exact Or.inr rfl
  · rename_i hc
    right
    rcases Nat.lt_or_ge j r.length with hlt | hge
    · exact absurd ⟨rfl, hlt⟩ hc
    · exact getD_of_length_le _ hge

theorem ColClipped_clip_ne {t u : Table} {name : String} {j k : Nat}
    (h : clipLower0 t name = .ok u) (hj : colIdx? t name = some j) (hne : j ≠ k)
    (hk : ColClipped t k) : ColClipped u k := by
  obtain ⟨j2, hj2, _, _, hr⟩ := clipLower0_ok h
  rw [hj] at hj2
  cases hj2
  intro r2 hr2
  rw [hr] at hr2
  obtain ⟨r, hrm, rfl⟩ := List.mem_map.mp hr2
  rw [getD_set_cases, if_neg (by tauto)]
  exact hk r hrm

theorem DFilled_subset {D : Dtype → Prop} {t u : Table}
    (hh : u.header = t.header) (hsub : ∀ r ∈ u.rows, r ∈ t.rows)
    (h : DFilled D t) : DFilled D u := by
  intro r hr j hj hD
  refine h r (hsub r hr) j hj ?_
  rwa [show dtypeAt u j = dtypeAt t j from by rw [dtypeAt, dtypeAt, hh]] at hD

theorem DFilled_fillNum {D : Dtype → Prop} {t : Table}
    (h : DFilled D t) : DFilled D (fillnaNumeric t) := by
  intro r2 hr2 j hj hD
  simp only [fillnaNumeric, List.mem_map] at hr2
  obtain ⟨r, hrm, rfl⟩ := hr2
  simp only [List.length_zipWith, lt_inf_iff] at hj
  rw [fillnaNumeric_cell, if_pos hj]
  exact fillCellNum_isNa_false (h r hrm j hj.2 hD)

theorem DFilled_fillObj {D : Dtype → Prop} {t : Table}
    (h : DFilled D t) : DFilled D (fillnaObject t) := by
  intro r2 hr2 j hj hD
  simp only [fillnaObject, List.mem_map] at hr2
  obtain ⟨r, hrm, rfl⟩ := hr2
  simp only [List.length_zipWith, lt_inf_iff] at hj
  rw [fillnaObject_cell, if_pos hj]
  exact fillCellObj_isNa_false (h r hrm j hj.2 hD)

theorem DFilled_clip {D : Dtype → Prop} {t u : Table} {name : String}
    (h : clipLower0 t name = .ok u) (hf : DFilled D t) : DFilled D u := by
  obtain ⟨j, _, hall, hh, hr⟩ := clipLower0_ok h
  intro r2 hr2 k hk hD
  rw [hr] at hr2
  obtain ⟨r, hrm, rfl⟩ := List.mem_map.mp hr2
  rw [List.length_set] at hk
  have hD2 : D (dtypeAt t k) := by
    rwa [show dtypeAt u k = dtypeAt t k from by rw [dtypeAt, dtypeAt, hh]] at hD
  rw [getD_set_cases]
  split
  · rename_i hc
    obtain ⟨rfl, _⟩ := hc
    have hg := hall r hrm
    cases hw : clipCell (r.getD j Val.na) with
    | none => rw [hw] at hg; simp at hg
    | some w =>
        simp only [hw, Option.getD_some]
        rcases clipCell_some hw with ⟨q, _, rfl⟩ | ⟨hv, rfl⟩
        · rfl
        · have := hf r hrm j hk hD2
          rw [hv] at this
          simp [Val.isNa] at this
  · exact hf r hrm k hk hD2

theorem NumFilled_fillNum (t : Table) : NumFilled (fillnaNumeric t) := by
  unfold NumFilled DFilled
  intro r2 hr2 j hj hD
  simp only [fillnaNumeric, List.mem_map] at hr2
  obtain ⟨r, hrm, rfl⟩ := hr2
  simp only [List.length_zipWith, lt_inf_iff] at hj
  rw [fillnaNumeric_cell, if_pos hj]
  exact fillCellNum_numeric_nonNa _ hD

theorem ObjFilled_fillObj (t : Table) : ObjFilled (fillnaObject t) := by
  unfold ObjFilled DFilled
  intro r2 hr2 j hj hD
  simp only [fillnaObject, List.mem_map] at hr2
  obtain ⟨r, hrm, rfl⟩ := hr2
  simp only [List.length_zipWith, lt_inf_iff] at hj
  have hD2 : dtypeAt t j = .object := hD
  rw [fillnaObject_cell, if_pos hj, hD2]
  exact fillCellObj_object_nonNa _

theorem RowsFit_fillObj (t : Table) : RowsFit (fillnaObject t) := by
  intro r2 hr2
  simp only [fillnaObject, List.mem_map] at hr2
  obtain ⟨r, _, rfl⟩ := hr2
  simp [fillnaObject, List.length_zipWith]

theorem RowsFit_subset {t u : Table} (hh : u.header = t.header)
    (hsub : ∀ r ∈ u.rows, r ∈ t.rows) (h : RowsFit t) : RowsFit u := by
  intro r hr
  rw [hh]
  exact h r (hsub r hr)

theorem RowsFit_clip {t u : Table} {name : String}
    (h : clipLower0 t name = .ok u) (hf : RowsFit t) : RowsFit u := by
  obtain ⟨j, _, _, hh, hr⟩ := clipLower0_ok h
  intro r2 hr2
  rw [hr] at hr2
  obtain ⟨r, hrm, rfl⟩ := List.mem_map.mp hr2
  rw [List.length_set, hh]
  exact hf r hrm

/-- The invariants the Cleaner establishes: whenever `clean_dataset`
succeeds, the cleaned table keeps the input's column names, its rows fit
the header, its numeric- and object-dtype columns have no absent cell
within each row's extent, its `continent` column has no absent cell, its
`date` column holds only dates and has datetime dtype, and its
`total_cases` and `new_cases` columns hold only non-negative numbers or
absent cells. -/
theorem clean_facts {t c : Table} (h : clean_dataset t = .ok c) :
    colNames c = colNames t ∧ RowsFit c ∧ NumFilled c ∧ ObjFilled c ∧
    (∃ jc, colIdx? c "continent" = some jc ∧ ColNonNa c jc) ∧
    (∃ jd, colIdx? c "date" = some jd ∧ ColDates c jd ∧ dtypeAt c jd = .datetime) ∧
    (∃ jt, colIdx? c "total_cases" = some jt ∧ ColClipped c jt) ∧
    (∃ jn, colIdx? c "new_cases" = some jn ∧ ColClipped c jn) := by
  obtain ⟨t1, t2, t5, t6, h1, h2, h5, h6, h7⟩ := clean_ok_iff.mp h
  obtain ⟨jc, hjc, hh1, hr1⟩ := filterByNotna_ok h1
  obtain ⟨jd, hjd, hall2, hh2, hr2⟩ := toDatetimeCol_ok h2
  obtain ⟨jd5, hjd5, hh5, hr5⟩ := filterByNotna_ok h5
  obtain ⟨jt, hjt, hall6, hh6, hr6⟩ := clipLower0_ok h6
  obtain ⟨jn, hjn, hall7, hh7, hr7⟩ := clipLower0_ok h7
  -- column names are stable along the chain
  have n1 : colNames t1 = colNames t := by simp only [colNames, hh1]
  have n2 : colNames t2 = colNames t1 := by
    simp only [colNames]
    rw [hh2, names_set_dtype]
  have n5 : colNames t5 = colNames t2 := by
    simp only [colNames, hh5]
    rfl
  have n6 : colNames t6 = colNames t5 := by simp only [colNames, hh6]
  have n7 : colNames c = colNames t6 := by simp only [colNames, hh7]
  have nc : colNames c = colNames t := by rw [n7, n6, n5, n2, n1]
  -- column indices are stable along the chain
  have idx1 : ∀ name, colIdx? t1 name = colIdx? t name := colIdx?_congr n1
  have idx2 : ∀ name, colIdx? t2 name = colIdx? t1 name := colIdx?_congr n2
  have idx5 : ∀ name, colIdx? t5 name = colIdx? t2 name := colIdx?_congr n5
  have idx6 : ∀ name, colIdx? t6 name = colIdx? t5 name := colIdx?_congr n6
  have idxc : ∀ name, colIdx? c name = colIdx? t6 name := colIdx?_congr n7
  -- header lengths are stable along the chain
  have l1 : t1.header.length = t.header.length := by rw [hh1]
  have l2 : t2.header.length = t1.header.length := by rw [hh2, List.length_set]
  have l4 : (fillnaObject (fillnaNumeric t2)).header.length = t2.header.length := rfl
  have l5 : t5.header.length = t2.header.length := by
    rw [hh5]; exact l4
  have l6 : t6.header.length = t5.header.length := by rw [hh6]
  have lc : c.header.length = t6.header.length := by rw [hh7]
  -- membership inclusions for the two row filters
  have sub5 : ∀ r ∈ t5.rows, r ∈ (fillnaObject (fillnaNumeric t2)).rows := by
    intro r hr
    rw [hr5] at hr
    exact (List.mem_filter.mp hr).1
  -- RowsFit
  have f4 : RowsFit (fillnaObject (fillnaNumeric t2)) := RowsFit_fillObj _
  have f5 : RowsFit t5 := RowsFit_subset hh5 sub5 f4
  have fc : RowsFit c := RowsFit_clip h7 (RowsFit_clip h6 f5)
  -- NumFilled
  have nf3 : NumFilled (fillnaNumeric t2) := NumFilled_fillNum t2
  have nf4 : NumFilled (fillnaObject (fillnaNumeric t2)) := DFilled_fillObj nf3
  have nf5 : NumFilled t5 := DFilled_subset hh5 sub5 nf4
  have nfc : NumFilled c := DFilled_clip h7 (DFilled_clip h6 nf5)
  -- ObjFilled
  have of4 : ObjFilled (fillnaObject (fillnaNumeric t2)) := ObjFilled_fillObj _
  have of5 : ObjFilled t5 := DFilled_subset hh5 sub5 of4
  have ofc : ObjFilled c := DFilled_clip h7 (DFilled_clip h6 of5)
  -- continent column: established by the first filter, preserved
  have cn1 : ColNonNa t1 jc := ColNonNa_filterSelf h1 hjc
  have cn2 : ColNonNa t2 jc := ColNonNa_toDT h2 cn1
  have hjclt : jc < t2.header.length := by
    rw [l2, l1]; exact colIdx?_lt hjc
  have cn3 : ColNonNa (fillnaNumeric t2) jc := ColNonNa_fillNum hjclt cn2
  have cn4 : ColNonNa (fillnaObject (fillnaNumeric t2)) jc := ColNonNa_fillObj hjclt cn3
  have cn5 : ColNonNa t5 jc := ColNonNa_subset sub5 cn4
  have cnc : ColNonNa c jc := ColNonNa_clip h7 (ColNonNa_clip h6 cn5)
  -- date column: dates-or-absent after parsing, dates after the filter
  have do2 : ColDateOrNa t2 jd := ColDateOrNa_toDT h2 hjd
  have dt2 : dtypeAt t2 jd = .datetime := by
    show (t2.header.getD jd hdrD).2 = .datetime
    rw [hh2, getD_set_lt _ _ (colIdx?_lt hjd)]
  have do3 : ColDateOrNa (fillnaNumeric t2) jd := ColDateOrNa_fillNum dt2 do2
  have do4 : ColDateOrNa (fillnaObject (fillnaNumeric t2)) jd :=
    ColDateOrNa_fillObj dt2 do3
  have hjd4 : colIdx? (fillnaObject (fillnaNumeric t2)) "date" = some jd :=
    (idx2 "date").trans hjd
  have cd5 : ColDates t5 jd := ColDates_filterNotna h5 hjd4 do4
  have cdc : ColDates c jd := ColDates_clip h7 (ColDates_clip h6 cd5)
  have dtc : dtypeAt c jd = .datetime := by
    show (c.header.getD jd hdrD).2 = .datetime
    rw [hh7, hh6, hh5]
    exact dt2
  -- clipped columns
  have cc6 : ColClipped t6 jt := ColClipped_clipSelf h6 hjt
  have hjt6 : colIdx? t6 "total_cases" = some jt := by
    rw [idx6]; exact hjt
  have hne : jn ≠ jt := colIdx?_ne hjn hjt6 (by decide)
  have ccc : ColClipped c jt := ColClipped_clip_ne h7 hjn hne cc6
  have cnnc : ColClipped c jn := ColClipped_clipSelf h7 hjn
  -- indices transported to the cleaned table
  have hjcc : colIdx? c "continent" = some jc := by
    rw [idxc, idx6, idx5, idx2, idx1]; exact hjc
  have hjdc : colIdx? c "date" = some jd := by
    rw [idxc, idx6, idx5, idx2]; exact hjd
  have hjtc : colIdx? c "total_cases" = some jt := by
    rw [idxc, idx6]; exact hjt
  have hjnc : colIdx? c "new_cases" = some jn := by
    rw [idxc]; exact hjn
  exact ⟨nc, fc, nfc, ofc, ⟨jc, hjcc, cnc⟩, ⟨jd, hjdc, cdc, dtc⟩,
    ⟨jt, hjtc, ccc⟩, ⟨jn, hjnc, cnnc⟩⟩

/-! ### Each Cleaner step is the identity on an already-clean table -/

theorem ColNonNa_of_ColDates {t : Table} {j : Nat} (h : ColDates t j) :
    ColNonNa t j := by
  intro r hr
  have := h r hr
  cases hv : r.getD j Val.na <;> rw [hv] at this <;>
    simp [Val.isDate] at this <;> rfl

theorem filterByNotna_id {t : Table} {name : String} {j : Nat}
    (hj : colIdx? t name = some j) (hnn : ColNonNa t j) :
    filterByNotna t name = .ok t := by
  unfold filterByNotna
  rw [hj]
  have hf : t.rows.filter (fun r => !(r.getD j Val.na).isNa) = t.rows :=
    List.filter_eq_self.mpr (fun r hr => by rw [hnn r hr]; rfl)
  show Except.ok ⟨t.header, t.rows.filter (fun r => !(r.getD j Val.na).isNa)⟩ = .ok t
  rw [hf]

theorem toDatetimeCol_id {t : Table} {j : Nat}
    (hj : colIdx? t "date" = some j) (hdt : dtypeAt t j = .datetime)
    (hd : ColDates t j) : toDatetimeCol t "date" = .ok t := by
  have hall : t.rows.all (fun r => (toDTcell (r.getD j Val.na)).isSome) = true := by
    rw [List.all_eq_true]
    intro r hr
    rw [toDTcell_isSome_ne_na (ColNonNa_of_ColDates hd r hr) (hd r hr)]
    rfl
  have hpair : ((t.header.getD j hdrD).1, Dtype.datetime) = t.header.getD j hdrD := by
    rw [← hdt]
    exact Prod.mk.eta
  have hrows : t.rows.map (fun r => r.set j ((toDTcell (r.getD j Val.na)).getD .na))
      = t.rows := by
    apply map_eq_self
    intro r hr
    rw [toDTcell_isSome_ne_na (ColNonNa_of_ColDates hd r hr) (hd r hr)]
    exact set_getD_self _ _ _
  simp only [toDatetimeCol, hj, hall, if_true, hrows]
  rw [hpair, set_getD_self]

theorem fillnaNumeric_id {t : Table} (hfit : RowsFit t) (hnf : NumFilled t) :
    fillnaNumeric t = t := by
  obtain ⟨hd, rs⟩ := t
  unfold fillnaNumeric
  simp only [Table.mk.injEq, true_and]
  apply map_eq_self
  intro r hr
  apply zipWith_eq_self hdrD
  · exact hfit r hr
  · intro k hk
    by_cases hdt : (hd.getD k hdrD).2 = .float64 ∨ (hd.getD k hdrD).2 = .int64
    · exact fillCellNum_of_nonNa (hnf r hr k hk hdt)
    · exact fillCellNum_not_numeric _ hdt

theorem fillnaObject_id {t : Table} (hfit : RowsFit t) (hof : ObjFilled t) :
    fillnaObject t = t := by
  obtain ⟨hd, rs⟩ := t
  unfold fillnaObject
  simp only [Table.mk.injEq, true_and]
  apply map_eq_self
  intro r hr
  apply zipWith_eq_self hdrD
  · exact hfit r hr
  · intro k hk
    by_cases hdt : (hd.getD k hdrD).2 = .object
    · exact fillCellObj_of_nonNa (hof r hr k hk hdt)
    · exact fillCellObj_not_object _ hdt

theorem clipLower0_id {t : Table} {name : String} {j : Nat}
    (hj : colIdx? t name = some j) (hc : ColClipped t j) :
    clipLower0 t name = .ok t := by
  have hall : t.rows.all (fun r => (clipCell (r.getD j Val.na)).isSome) = true := by
    rw [List.all_eq_true]
    intro r hr
    rcases hc r hr with ⟨q, hv, _⟩ | hv <;> rw [hv] <;> rfl
  have hrows : t.rows.map (fun r => r.set j ((clipCell (r.getD j Val.na)).getD .na))
      = t.rows := by
    apply map_eq_self
    intro r hr
    rcases hc r hr with ⟨q, hv, hq⟩ | hv
    · rw [hv]
      show r.set j (Val.num (max 0 q)) = r
      rw [max_eq_right hq, ← hv]
      exact set_getD_self _ _ _
    · rw [hv]
      show r.set j Val.na = r
      rw [← hv]
      exact set_getD_self _ _ _
  simp only [clipLower0, hj, hall, if_true, hrows]

/-- Idempotence of the Cleaner: on its own successful output, every step
is the identity and the run succeeds. -/
theorem clean_dataset_idem {t c : Table} (h : clean_dataset t = .ok c) :
    clean_dataset c = .ok c := by
  obtain ⟨_, fc, nfc, ofc, ⟨jc, hjcc, cnc⟩, ⟨jd, hjdc, cdc, dtc⟩,
    ⟨jt, hjtc, ccc⟩, ⟨jn, hjnc, cnnc⟩⟩ := clean_facts h
  have e1 : filterByNotna c "continent" = .ok c := filterByNotna_id hjcc cnc
  have e2 : toDatetimeCol c "date" = .ok c := toDatetimeCol_id hjdc dtc cdc
  have e3 : fillnaNumeric c = c := fillnaNumeric_id fc nfc
  have e4 : fillnaObject c = c := fillnaObject_id fc ofc
  have e5 : filterByNotna c "date" = .ok c :=
    filterByNotna_id hjdc (ColNonNa_of_ColDates cdc)
  have e6 : clipLower0 c "total_cases" = .ok c := clipLower0_id hjtc ccc
  have e7 : clipLower0 c "new_cases" = .ok c := clipLower0_id hjnc cnnc
  rw [clean_ok_iff]
  exact ⟨c, c, c, c, e1, e2, by rw [e3, e4]; exact e5, e6, e7⟩

/-! ### Per-column value tracking under the loader's typing -/

theorem ColP_subset {P : Val → Prop} {t u : Table} {j : Nat}
    (hsub : ∀ r ∈ u.rows, r ∈ t.rows) (h : ColP P t j) : ColP P u j :=
  fun r hr => h r (hsub r hr)

theorem ColP_toDT_ne {P : Val → Prop} {t u : Table} {name : String} {j k : Nat}
    (h : toDatetimeCol t name = .ok u) (hj : colIdx? t name = some j)
    (hne : j ≠ k) (hp : ColP P t k) : ColP P u k := by
  obtain ⟨j2, hj2, _, _, hr⟩ := toDatetimeCol_ok h
  rw [hj] at hj2
  cases hj2
  intro r2 hr2
  rw [hr] at hr2
  obtain ⟨r, hrm, rfl⟩ := List.mem_map.mp hr2
  rw [getD_set_cases, if_neg (by tauto)]
  exact hp r hrm

theorem ColP_toDT_self {P Q : Val → Prop} {t u : Table} {name : String} {j : Nat}
    (h : toDatetimeCol t name = .ok u) (hj : colIdx? t name = some j)
    (hstep : ∀ v w, P v → toDTcell v = some w → Q w)
    (hp : ColP P t j) : ColP Q u j := by
  obtain ⟨j2, hj2, hall, _, hr⟩ := toDatetimeCol_ok h
  rw [hj] at hj2
  cases hj2
  intro r2 hr2
  rw [hr] at hr2
  obtain ⟨r, hrm, rfl⟩ := List.mem_map.mp hr2
  have hg := hall r hrm
  cases hw : toDTcell (r.getD j Val.na) with
  | none => rw [hw] at hg; simp at hg
  | some w =>
      have hq : Q w := hstep _ _ (hp r hrm) hw
      rw [getD_set_cases]
      split
      · simpa [hw] using hq
      · rename_i hc
        rcases Nat.lt_or_ge j r.length with hlt | hge
        · exact absurd ⟨rfl, hlt⟩ hc
        · -- beyond the row's extent the cell is absent before and after
          have hold : r.getD j Val.na = Val.na := getD_of_length_le _ hge
          rw [hold]
          rw [hold] at hw
          have : w = Val.na := by simpa [toDTcell] using hw.symm
          rw [← this]
          exact hq

theorem ColP_fillNum {P Q : Val → Prop} {t : Table} {k : Nat}
    (hk : k < t.header.length) (hrect : Rect t)
    (hstep : ∀ v, P v → Q (fillCellNum (dtypeAt t k) v))
    (hp : ColP P t k) : ColP Q (fillnaNumeric t) k := by
  intro r2 hr2
  simp only [fillnaNumeric, List.mem_map] at hr2
  obtain ⟨r, hrm, rfl⟩ := hr2
  rw [fillnaNumeric_cell, if_pos ⟨hk, by rw [hrect r hrm]; exact hk⟩]
  exact hstep _ (hp r hrm)

theorem ColP_fillObj {P Q : Val → Prop} {t : Table} {k : Nat}
    (hk : k < t.header.length) (hrect : Rect t)
    (hstep : ∀ v, P v → Q (fillCellObj (dtypeAt t k) v))
    (hp : ColP P t k) : ColP Q (fillnaObject t) k := by
  intro r2 hr2
  simp only [fillnaObject, List.mem_map] at hr2
  obtain ⟨r, hrm, rfl⟩ := hr2
  rw [fillnaObject_cell, if_pos ⟨hk, by rw [hrect r hrm]; exact hk⟩]
  exact hstep _ (hp r hrm)

theorem ColP_clip_self {P : Val → Prop} {t u : Table} {name : String} {j : Nat}
    (h : clipLower0 t name = .ok u) (hj : colIdx? t name = some j)
    (hstep : ∀ v w, P v → clipCell v = some w → P w)
    (hp : ColP P t j) : ColP P u j := by
  obtain ⟨j2, hj2, hall, _, hr⟩ := clipLower0_ok h
  rw [hj] at hj2
  cases hj2
  intro r2 hr2
  rw [hr] at hr2
  obtain ⟨r, hrm, rfl⟩ := List.mem_map.mp hr2
  have hg := hall r hrm
  cases hw : clipCell (r.getD j Val.na) with
  | none => rw [hw] at hg; simp at hg
  | some w =>
      have hq : P w := hstep _ _ (hp r hrm) hw
      rw [getD_set_cases]
      split
      · simpa [hw] using hq
      · rename_i hc
        rcases Nat.lt_or_ge j r.length with hlt | hge
        · exact absurd ⟨rfl, hlt⟩ hc
        · have hold : r.getD j Val.na = Val.na := getD_of_length_le _ hge
          rw [hold]
          rw [hold] at hw
          have : w = Val.na := by simpa [clipCell] using hw.symm
          rw [← this]
          exact hq

theorem ColP_clip_ne {P : Val → Prop} {t u : Table} {name : String} {j k : Nat}
    (h : clipLower0 t name = .ok u) (hj : colIdx? t name = some j)
    (hne : j ≠ k) (hp : ColP P t k) : ColP P u k := by
  obtain ⟨j2, hj2, _, _, hr⟩ := clipLower0_ok h
  rw [hj] at hj2
  cases hj2
  intro r2 hr2
  rw [hr] at hr2
  obtain ⟨r, hrm, rfl⟩ := List.mem_map.mp hr2
  rw [getD_set_cases, if_neg (by tauto)]
  exact hp r hrm

theorem ColP_filter_notna {P : Val → Prop} {t u : Table} {name : String} {j : Nat}
    (h : filterByNotna t name = .ok u) (hj : colIdx? t name = some j)
    (hp : ColP (fun v => P v ∨ v = .na) t j) : ColP P u j := by
  obtain ⟨j2, hj2, _, hr⟩ := filterByNotna_ok h
  rw [hj] at hj2
  cases hj2
  intro r hrm
  rw [hr] at hrm
  obtain ⟨hrt, hpred⟩ := List.mem_filter.mp hrm
  rcases hp r hrt with hP | hna
  · exact hP
  · rw [hna] at hpred; simp [Val.isNa] at hpred

theorem Rect_subset {t u : Table} (hh : u.header = t.header)
    (hsub : ∀ r ∈ u.rows, r ∈ t.rows) (h : Rect t) : Rect u := by
  intro r hr
  rw [hh]
  exact h r (hsub r hr)

theorem Rect_toDT {t u : Table} {name : String}
    (h : toDatetimeCol t name = .ok u) (hrect : Rect t) : Rect u := by
  obtain ⟨j, _, _, hh, hr⟩ := toDatetimeCol_ok h
  intro r2 hr2
  rw [hr] at hr2
  obtain ⟨r, hrm, rfl⟩ := List.mem_map.mp hr2
  rw [List.length_set, hh, List.length_set]
  exact hrect r hrm

theorem Rect_fillNum {t : Table} (hrect : Rect t) : Rect (fillnaNumeric t) := by
  intro r2 hr2
  simp only [fillnaNumeric, List.mem_map] at hr2
  obtain ⟨r, hrm, rfl⟩ := hr2
  simp only [List.length_zipWith, fillnaNumeric]
  rw [hrect r hrm]
  exact Nat.min_self _

theorem Rect_fillObj {t : Table} (hrect : Rect t) : Rect (fillnaObject t) := by
  intro r2 hr2
  simp only [fillnaObject, List.mem_map] at hr2
  obtain ⟨r, hrm, rfl⟩ := hr2
  simp only [List.length_zipWith, fillnaObject]
  rw [hrect r hrm]
  exact Nat.min_self _

theorem Rect_clip {t u : Table} {name : String}
    (h : clipLower0 t name = .ok u) (hrect : Rect t) : Rect u := by
  obtain ⟨j, _, _, hh, hr⟩ := clipLower0_ok h
  intro r2 hr2
  rw [hr] at hr2
  obtain ⟨r, hrm, rfl⟩ := List.mem_map.mp hr2
  rw [List.length_set, hh]
  exact hrect r hrm

theorem parseDate_valid {s : String} {y m d : Nat}
    (h : parseDate s = some (y, m, d)) : ValidYmd y m d := by
  unfold parseDate at h
  split at h
  · split at h
    · split at h
      · split at h
        · rename_i hv
          cases h
          exact hv
        · exact absurd h (by simp)
      · exact absurd h (by simp)
    · exact absurd h (by simp)
  · exact absurd h (by simp)

theorem isNum_nonNa {v : Val} (h : v.isNum = true) : v.isNa = false := by
  cases v <;> simp [Val.isNum, Val.isNa] at h ⊢

theorem isStr_nonNa {v : Val} (h : v.isStr = true) : v.isNa = false := by
  cases v <;> simp [Val.isStr, Val.isNa] at h ⊢

theorem ColP_clip {P : Val → Prop} {t u : Table} {name : String} {j k : Nat}
    (h : clipLower0 t name = .ok u) (hj : colIdx? t name = some j)
    (hstep : ∀ v w, P v → clipCell v = some w → P w)
    (hp : ColP P t k) : ColP P u k := by
  by_cases hjk : j = k
  · subst hjk
    exact ColP_clip_self h hj hstep hp
  · exact ColP_clip_ne h hj hjk hp

/-- The shape the Cleaner's output has when the input is a table the
loader can produce: rectangular rows; a datetime-typed `date` column all
of whose cells are valid parsed calendar dates; every other column keeps
its input dtype; every numeric-dtype column holds only numbers; every
object-dtype column holds only strings. -/
theorem clean_csv_facts {t c : Table} (h : clean_dataset t = .ok c)
    (hcsv : CsvTyped t) :
    Rect c ∧
    (∃ jd, colIdx? c "date" = some jd ∧ dtypeAt c jd = .datetime ∧
      (∀ k, k ≠ jd → dtypeAt c k = dtypeAt t k) ∧
      (∀ r ∈ c.rows, ∃ y m d, r.getD jd Val.na = .date y m d ∧ ValidYmd y m d)) ∧
    (∀ k, (dtypeAt c k = .float64 ∨ dtypeAt c k = .int64) →
      ∀ r ∈ c.rows, (r.getD k Val.na).isNum = true) ∧
    (∀ k, k < c.header.length → dtypeAt c k = .object →
      ∀ r ∈ c.rows, (r.getD k Val.na).isStr = true) := by
  obtain ⟨t1, t2, t5, t6, h1, h2, h5, h6, h7⟩ := clean_ok_iff.mp h
  obtain ⟨jc, hjc, hh1, hr1⟩ := filterByNotna_ok h1
  obtain ⟨jd, hjd, hall2, hh2, hr2⟩ := toDatetimeCol_ok h2
  obtain ⟨jd5, hjd5, hh5, hr5⟩ := filterByNotna_ok h5
  obtain ⟨jt, hjt, hall6, hh6, hr6⟩ := clipLower0_ok h6
  obtain ⟨jn, hjn, hall7, hh7, hr7⟩ := clipLower0_ok h7
  have n1 : colNames t1 = colNames t := by simp only [colNames, hh1]
  have n2 : colNames t2 = colNames t1 := by
    simp only [colNames]
    rw [hh2, names_set_dtype]
  have idx2 : ∀ name, colIdx? t2 name = colIdx? t1 name := colIdx?_congr n2
  have l1 : t1.header.length = t.header.length := by rw [hh1]
  have l2 : t2.header.length = t1.header.length := by rw [hh2, List.length_set]
  have sub1 : ∀ r ∈ t1.rows, r ∈ t.rows := by
    intro r hr
    rw [hr1] at hr
    exact (List.mem_filter.mp hr).1
  have sub5 : ∀ r ∈ t5.rows, r ∈ (fillnaObject (fillnaNumeric t2)).rows := by
    intro r hr
    rw [hr5] at hr
    exact (List.mem_filter.mp hr).1
  have hjd4 : colIdx? (fillnaObject (fillnaNumeric t2)) "date" = some jd :=
    (idx2 "date").trans hjd
  -- rectangularity flows through the whole pipeline
  have rt : Rect t := fun r hr => (hcsv.2 r hr).1
  have rt1 : Rect t1 := Rect_subset hh1 sub1 rt
  have rt2 : Rect t2 := Rect_toDT h2 rt1
  have rt3 : Rect (fillnaNumeric t2) := Rect_fillNum rt2
  have rt4 : Rect (fillnaObject (fillnaNumeric t2)) := Rect_fillObj rt3
  have rt5 : Rect t5 := Rect_subset hh5 sub5 rt4
  have rtc : Rect c := Rect_clip h7 (Rect_clip h6 rt5)
  -- dtype bookkeeping
  have dt2 : dtypeAt t2 jd = .datetime := by
    show (t2.header.getD jd hdrD).2 = .datetime
    rw [hh2, getD_set_lt _ _ (colIdx?_lt hjd)]
  have dtc : dtypeAt c jd = .datetime := by
    show (c.header.getD jd hdrD).2 = .datetime
    rw [hh7, hh6, hh5]
    exact dt2
  have dt_ne : ∀ k, k ≠ jd → dtypeAt c k = dtypeAt t k := by
    intro k hk
    show (c.header.getD k hdrD).2 = (t.header.getD k hdrD).2
    rw [hh7, hh6, hh5]
    show (t2.header.getD k hdrD).2 = _
    rw [hh2, getD_set_ne _ _ (fun he => hk (he.symm)), hh1]
  have dt2_ne : ∀ k, k ≠ jd → dtypeAt t2 k = dtypeAt t k := by
    intro k hk
    show (t2.header.getD k hdrD).2 = (t.header.getD k hdrD).2
    rw [hh2, getD_set_ne _ _ (fun he => hk (he.symm)), hh1]
  -- starting cell typing, from the loader's postcondition
  have cf : ∀ k, ColP (fun v => cellFits (dtypeAt t k) v) t k := by
    intro k r hr
    rcases Nat.lt_or_ge k t.header.length with hlt | hge
    · exact (hcsv.2 r hr).2 k hlt
    · have : r.getD k Val.na = Val.na :=
        getD_of_length_le _ (by rw [(hcsv.2 r hr).1]; exact hge)
      rw [this]
      have : dtypeAt t k = .object := by
        show (t.header.getD k hdrD).2 = .object
        rw [getD_of_length_le _ hge]
        rfl
      rw [this]
      exact Or.inr rfl
  have cf1 : ∀ k, ColP (fun v => cellFits (dtypeAt t k) v) t1 k :=
    fun k => ColP_subset sub1 (cf k)
  -- the date column: only valid parsed dates survive
  have p0 : ColP (fun v => v.isDate = false) t1 jd := by
    intro r hr
    have hfit := cf1 jd r hr
    cases hdt : dtypeAt t jd with
    | float64 =>
        rw [hdt] at hfit
        simp only [cellFits] at hfit
        rcases hfit with ⟨q, hq⟩ | hq <;> rw [hq] <;> rfl
    | int64 =>
        rw [hdt] at hfit
        simp only [cellFits] at hfit
        obtain ⟨q, hq⟩ := hfit
        rw [hq]; rfl
    | object =>
        rw [hdt] at hfit
        simp only [cellFits] at hfit
        rcases hfit with ⟨s2, hq⟩ | hq <;> rw [hq] <;> rfl
    | datetime =>
        rw [hdt] at hfit
        simp only [cellFits] at hfit
    | period =>
        rw [hdt] at hfit
        simp only [cellFits] at hfit
  have hstepDT : ∀ v w, v.isDate = false → toDTcell v = some w →
      ((∃ y m d, w = .date y m d ∧ ValidYmd y m d) ∨ w = .na) := by
    intro v w hv hw
    cases v with
    | str s =>
        simp only [toDTcell] at hw
        cases hp : parseDate s with
        | none => rw [hp] at hw; simp at hw
        | some p =>
            rw [hp] at hw
            have hwd : Val.date p.1 p.2.1 p.2.2 = w := by simpa using hw
            exact Or.inl ⟨p.1, p.2.1, p.2.2, hwd.symm, parseDate_valid hp⟩
    | na =>
        simp only [toDTcell, Option.some.injEq] at hw
        exact Or.inr hw.symm
    | date y m d => simp [Val.isDate] at hv
    | num q => simp [toDTcell] at hw
    | period a b => simp [toDTcell] at hw
  have q2 : ColP (fun v => (∃ y m d, v = .date y m d ∧ ValidYmd y m d) ∨ v = .na)
      t2 jd := ColP_toDT_self h2 hjd hstepDT p0
  have hjdlt2 : jd < t2.header.length := by
    rw [l2]; exact colIdx?_lt hjd
  have q3 : ColP (fun v => (∃ y m d, v = .date y m d ∧ ValidYmd y m d) ∨ v = .na)
      (fillnaNumeric t2) jd := by
    refine ColP_fillNum hjdlt2 rt2 ?_ q2
    intro v hv
    rw [dt2, fillCellNum_not_numeric _ (by simp)]
    exact hv
  have q4 : ColP (fun v => (∃ y m d, v = .date y m d ∧ ValidYmd y m d) ∨ v = .na)
      (fillnaObject (fillnaNumeric t2)) jd := by
    refine ColP_fillObj hjdlt2 rt3 ?_ q3
    intro v hv
    rw [show dtypeAt (fillnaNumeric t2) jd = Dtype.datetime from dt2,
      fillCellObj_not_object _ (by simp)]
    exact hv
  have hstepDateClip : ∀ v w, (∃ y m d, v = .date y m d ∧ ValidYmd y m d) →
      clipCell v = some w → (∃ y m d, w = .date y m d ∧ ValidYmd y m d) := by
    rintro v w ⟨y, m, d, rfl, _⟩ hw
    simp [clipCell] at hw
  have q5 : ColP (fun v => ∃ y m d, v = .date y m d ∧ ValidYmd y m d) t5 jd :=
    ColP_filter_notna h5 hjd4 q4
  have qc : ColP (fun v => ∃ y m d, v = .date y m d ∧ ValidYmd y m d) c jd :=
    ColP_clip h7 hjn hstepDateClip (ColP_clip h6 hjt hstepDateClip q5)
  -- index of the date column in the cleaned table
  have n5 : colNames t5 = colNames t2 := by
    simp only [colNames, hh5]
    rfl
  have n6 : colNames t6 = colNames t5 := by simp only [colNames, hh6]
  have n7 : colNames c = colNames t6 := by simp only [colNames, hh7]
  have hjdc : colIdx? c "date" = some jd := by
    rw [colIdx?_congr n7, colIdx?_congr n6, colIdx?_congr n5, idx2]
    exact hjd
  -- numeric-dtype columns hold only numbers
  have numc : ∀ k, (dtypeAt c k = .float64 ∨ dtypeAt c k = .int64) →
      ∀ r ∈ c.rows, (r.getD k Val.na).isNum = true := by
    intro k hdtk
    have hkjd : k ≠ jd := by
      intro he
      rw [he, dtc] at hdtk
      rcases hdtk with hq | hq <;> cases hq
    have hdtt : dtypeAt t k = .float64 ∨ dtypeAt t k = .int64 := by
      rw [← dt_ne k hkjd]
      exact hdtk
    have p0 : ColP (fun v => v.isNum = true ∨ v = .na) t1 k := by
      intro r hr
      have := cf1 k r hr
      rcases hdtt with hq | hq <;> rw [hq] at this
      · rcases this with ⟨q2, hq2⟩ | hq2
        · rw [hq2]; exact Or.inl rfl
        · rw [hq2]; exact Or.inr rfl
      · obtain ⟨q2, hq2⟩ := this
        rw [hq2]; exact Or.inl rfl
    have p2 : ColP (fun v => v.isNum = true ∨ v = .na) t2 k :=
      ColP_toDT_ne h2 hjd (fun he => hkjd he.symm) p0
    have hklt2 : k < t2.header.length := by
      rw [l2, l1]
      cases hdtt with
      | inl hq | inr hq =>
          rcases Nat.lt_or_ge k t.header.length with hlt | hge
          · exact hlt
          · exact absurd hq (by
              show ¬(t.header.getD k hdrD).2 = _
              rw [getD_of_length_le _ hge]
              simp [hdrD])
    have hdt2k : dtypeAt t2 k = dtypeAt t k := dt2_ne k hkjd
    have p3 : ColP (fun v => v.isNum = true) (fillnaNumeric t2) k := by
      refine ColP_fillNum hklt2 rt2 ?_ p2
      intro v hv
      rw [hdt2k]
      rcases hv with hv | hv
      · rw [fillCellNum_of_nonNa (isNum_nonNa hv)]
        exact hv
      · rw [hv]
        rcases hdtt with hq | hq <;> rw [hq] <;> rfl
    have p4 : ColP (fun v => v.isNum = true) (fillnaObject (fillnaNumeric t2)) k := by
      refine ColP_fillObj hklt2 rt3 ?_ p3
      intro v hv
      rw [fillCellObj_of_nonNa (isNum_nonNa hv)]
      exact hv
    have p5 : ColP (fun v => v.isNum = true) t5 k := ColP_subset sub5 p4
    have hstepNum : ∀ v w, v.isNum = true → clipCell v = some w → w.isNum = true := by
      intro v w hv hw
      cases v <;> simp [Val.isNum] at hv
      simp only [clipCell, Option.some.injEq] at hw
      rw [← hw]
      rfl
    exact ColP_clip h7 hjn hstepNum (ColP_clip h6 hjt hstepNum p5)
  have lc2 : c.header.length = t2.header.length := by
    rw [hh7, hh6, hh5]
    rfl
  -- object-dtype columns hold only strings
  have objc : ∀ k, k < c.header.length → dtypeAt c k = .object →
      ∀ r ∈ c.rows, (r.getD k Val.na).isStr = true := by
    intro k hklt hdtk
    have hklt2 : k < t2.header.length := by rw [← lc2]; exact hklt
    have hkjd : k ≠ jd := by
      intro he
      rw [he, dtc] at hdtk
      cases hdtk
    have hdtt : dtypeAt t k = .object := by
      rw [← dt_ne k hkjd]
      exact hdtk
    have p0 : ColP (fun v => v.isStr = true ∨ v = .na) t1 k := by
      intro r hr
      have := cf1 k r hr
      rw [hdtt] at this
      rcases this with ⟨s2, hs⟩ | hs
      · rw [hs]; exact Or.inl rfl
      · rw [hs]; exact Or.inr rfl
    have p2 : ColP (fun v => v.isStr = true ∨ v = .na) t2 k :=
      ColP_toDT_ne h2 hjd (fun he => hkjd he.symm) p0
    have hdt2k : dtypeAt t2 k = dtypeAt t k := dt2_ne k hkjd
    have p3 : ColP (fun v => v.isStr = true ∨ v = .na) (fillnaNumeric t2) k := by
      refine ColP_fillNum hklt2 rt2 ?_ p2
      intro v hv
      rw [hdt2k, hdtt, fillCellNum_not_numeric _ (by simp)]
      exact hv
    have p4 : ColP (fun v => v.isStr = true) (fillnaObject (fillnaNumeric t2)) k := by
      refine ColP_fillObj hklt2 rt3 ?_ p3
      intro v hv
      rw [show dtypeAt (fillnaNumeric t2) k = Dtype.object from hdt2k.trans hdtt]
      rcases hv with hv | hv
      · rw [fillCellObj_of_nonNa (isStr_nonNa hv)]
        exact hv
      · rw [hv]
        rfl
    have p5 : ColP (fun v => v.isStr = true) t5 k := ColP_subset sub5 p4
    have hstepStr : ∀ v w, v.isStr = true → clipCell v = some w → w.isStr = true := by
      intro v w hv hw
      cases v <;> simp [Val.isStr] at hv
      simp [clipCell] at hw
    exact ColP_clip h7 hjn hstepStr (ColP_clip h6 hjt hstepStr p5)
  exact ⟨rtc, ⟨jd, hjdc, dtc, dt_ne, qc⟩, numc, objc⟩

/-! ### The Cleaner fails fatally on an unparseable date -/

/-- If, after the continent filter, some surviving row's date cell does
not parse (`pd.to_datetime` with its default `errors='raise'` raises),
the whole Cleaner ends in the fatal branch. -/
theorem clean_error_of_bad_date {t t1 : Table} {j : Nat}
    (h1 : filterByNotna t "continent" = .ok t1)
    (hj : colIdx? t1 "date" = some j)
    (hbad : ∃ r ∈ t1.rows, toDTcell (r.getD j Val.na) = none) :
    clean_dataset t = .error () := by
  have hno : ¬(t1.rows.all (fun r => (toDTcell (r.getD j Val.na)).isSome) = true) := by
    rw [List.all_eq_true]
    intro hall
    obtain ⟨r, hr, hb⟩ := hbad
    have := hall r hr
    rw [hb] at this
    simp at this
  have herr : toDatetimeCol t1 "date" = .error () := by
    simp only [toDatetimeCol, hj]
    rw [if_neg hno]
  simp only [clean_dataset, bind, h1, Except.bind, herr]

/-! ### Analyzer inversion -/

theorem computeStats_ok_iff {t : Table} {s : Stats} :
    computeStats t = .ok s ↔
      colMeanE t "new_cases" = .ok s.mean_cases ∧
      colMedianE t "new_cases" = .ok s.median_cases ∧
      colMaxE t "new_cases" = .ok s.max_cases ∧
      colMaxE t "total_cases" = .ok s.total_cases ∧
      corrPairsE t = .ok s.correlation ∧
      ∃ days, dateRangeE t = .ok days := by
  unfold computeStats
  simp only [bind, exceptBind_ok, pure, Except.pure, Except.ok.injEq]
  constructor
  · rintro ⟨mean, hm, median, hmed, mx, hmx, total, htot, corr, hcorr, days, hd, hs⟩
    rw [← hs]
    exact ⟨hm, hmed, hmx, htot, hcorr, days, hd⟩
  · rintro ⟨hm, hmed, hmx, htot, hcorr, days, hd⟩
    exact ⟨s.mean_cases, hm, s.median_cases, hmed, s.max_cases, hmx,
      s.total_cases, htot, s.correlation, hcorr, days, hd, rfl⟩

/-! ### Sortedness and size of the top-10 computation -/

theorem length_insertLe {α : Type} (le : α → α → Bool) (a : α) :
    ∀ l : List α, (insertLe le a l).length = l.length + 1 := by
  intro l
  induction l with
  | nil => rfl
  | cons b bs ih =>
      unfold insertLe
      split
      · rfl
      · simpa [insertLe] using ih

theorem length_insSort {α : Type} (le : α → α → Bool) :
    ∀ l : List α, (insSort le l).length = l.length := by
  intro l
  induction l with
  | nil => rfl
  | cons a as ih => simp [insSort, length_insertLe, ih]

theorem mem_insertLe {α : Type} (le : α → α → Bool) (a x : α) :
    ∀ l : List α, x ∈ insertLe le a l ↔ x = a ∨ x ∈ l := by
  intro l
  induction l with
  | nil => simp [insertLe]
  | cons b bs ih =>
      unfold insertLe
      split
      · simp [or_comm, or_assoc, or_left_comm]
      · simp [ih]
        tauto

theorem mem_insSort {α : Type} (le : α → α → Bool) (x : α) :
    ∀ l : List α, x ∈ insSort le l ↔ x ∈ l := by
  intro l
  induction l with
  | nil => simp [insSort]
  | cons a as ih => simp [insSort, mem_insertLe, ih]

theorem pairwise_insertLe {α : Type} {le : α → α → Bool}
    (htot : ∀ a b, le a b = true ∨ le b a = true)
    (htrans : ∀ a b c, le a b = true → le b c = true → le a c = true) (a : α) :
    ∀ {l : List α}, List.Pairwise (fun x y => le x y = true) l →
      List.Pairwise (fun x y => le x y = true) (insertLe le a l) := by
  intro l
  induction l with
  | nil => intro _; simp [insertLe]
  | cons b bs ih =>
      intro hp
      rw [List.pairwise_cons] at hp
      obtain ⟨hb, hbs⟩ := hp
      unfold insertLe
      split
      · rename_i hab
        rw [List.pairwise_cons]
        refine ⟨?_, List.pairwise_cons.mpr ⟨hb, hbs⟩⟩
        intro x hx
        rw [List.mem_cons] at hx
        rcases hx with hxb | hx
        · rw [hxb]; exact hab
        · exact htrans a b x hab (hb x hx)
      · rename_i hab
        rw [List.pairwise_cons]
        constructor
        · intro x hx
          rw [mem_insertLe] at hx
          rcases hx with hxa | hx
          · rw [hxa]
            rcases htot a b with h | h
            · exact absurd h hab
            · exact h
          · exact hb x hx
        · exact ih hbs

theorem pairwise_insSort {α : Type} {le : α → α → Bool}
    (htot : ∀ a b, le a b = true ∨ le b a = true)
    (htrans : ∀ a b c, le a b = true → le b c = true → le a c = true) :
    ∀ l : List α, List.Pairwise (fun x y => le x y = true) (insSort le l) := by
  intro l
  induction l with
  | nil => simp [insSort]
  | cons a as ih => exact pairwise_insertLe htot htrans a ih

theorem descByValB_total : ∀ a b : String × ℚ,
    descByValB a b = true ∨ descByValB b a = true := by
  intro a b
  unfold descByValB
  rcases le_total a.2 b.2 with h | h
  · right; exact decide_eq_true h
  · left; exact decide_eq_true h

theorem descByValB_trans : ∀ a b c : String × ℚ,
    descByValB a b = true → descByValB b c = true → descByValB a c = true := by
  intro a b c h1 h2
  unfold descByValB at h1 h2 ⊢
  exact decide_eq_true (le_trans (of_decide_eq_true h2) (of_decide_eq_true h1))

theorem exceptIsOk_iff {α : Type} {x : Except Unit α} :
    x.isOk = true ↔ ∃ v, x = .ok v := by
  cases x <;> simp [Except.isOk, Except.toBool]

theorem topCountriesE_ok {t : Table} {l : List (String × ℚ)}
    (h : topCountriesE t = .ok l) :
    ∃ keys, locKeysE t = .ok keys ∧
      (∀ k ∈ keys, (locMaxE t k).isOk = true) ∧
      l = (insSort descByValB
        (keys.map (fun k => (k, ((locMaxE t k).toOption).getD 0)))).take 10 := by
  unfold topCountriesE at h
  simp only [bind, exceptBind_ok] at h
  obtain ⟨keys, hk, h⟩ := h
  split at h
  · rename_i hall
    cases h
    exact ⟨keys, hk, by simpa [List.all_eq_true] using hall, rfl⟩
  · exact absurd h (by simp)

theorem corrPairs_full : ∀ (l1 l2 : List Val),
    (∀ v ∈ l1, v.isNum = true) → (∀ v ∈ l2, v.isNum = true) →
    ((l1.zip l2).filterMap corrCell).length = min l1.length l2.length := by
  intro l1
  induction l1 with
  | nil => intro l2 _ _; simp
  | cons a as ih =>
      intro l2 h1 h2
      cases l2 with
      | nil => simp
      | cons b bs =>
          have ha := h1 a (by simp)
          have hb := h2 b (by simp)
          cases a <;> simp [Val.isNum] at ha
          cases b <;> simp [Val.isNum] at hb
          rename_i qa qb
          have : corrCell (Val.num qa, Val.num qb) = some (qa, qb) := rfl
          simp only [List.zip_cons_cons, List.filterMap_cons, this,
            List.length_cons, List.length_cons]
          rw [ih bs (fun v hv => h1 v (by simp [hv])) (fun v hv => h2 v (by simp [hv]))]
          omega

/-! ### What the Visualizer's single store changes -/

theorem monthValsE_length {t : Table} {vals : List Val}
    (h : monthValsE t = .ok vals) : vals.length = t.rows.length := by
  unfold monthValsE at h
  split at h
  · exact absurd h (by simp)
  · split at h
    · cases h
      simp [colCells]
    · exact absurd h (by simp)

theorem map_getD_zipWith_set {jm j : Nat} (hne : jm ≠ j) :
    ∀ (rows : List (List Val)) (vals : List Val),
      (List.zipWith (fun r v => r.set jm v) rows vals).map (fun r => r.getD j Val.na)
        = (List.zipWith (fun r _ => r) rows vals).map (fun r => r.getD j Val.na) := by
  intro rows
  induction rows with
  | nil => intro vals; rfl
  | cons r rs ih =>
      intro vals
      cases vals with
      | nil => rfl
      | cons v vs =>
          simp only [List.zipWith, List.map_cons, ih vs, List.cons.injEq, and_true]
          exact getD_set_ne _ _ hne _

theorem map_getD_zipWith_append {j : Nat} :
    ∀ (rows : List (List Val)) (vals : List Val),
      (∀ r ∈ rows, j < r.length) →
      (List.zipWith (fun r v => r ++ [v]) rows vals).map (fun r => r.getD j Val.na)
        = (List.zipWith (fun r _ => r) rows vals).map (fun r => r.getD j Val.na) := by
  intro rows
  induction rows with
  | nil => intro vals _; rfl
  | cons r rs ih =>
      intro vals hj
      cases vals with
      | nil => rfl
      | cons v vs =>
          simp only [List.zipWith, List.map_cons,
            ih vs (fun r2 h2 => hj r2 (by simp [h2])), List.cons.injEq, and_true]
          exact List.getD_append _ _ _ _ (hj r (by simp))

theorem map_getD_zipWith_fst {j : Nat} :
    ∀ (rows : List (List Val)) (vals : List Val), vals.length = rows.length →
      (List.zipWith (fun r _ => r) rows vals).map (fun r => r.getD j Val.na)
        = rows.map (fun r => r.getD j Val.na) := by
  intro rows
  induction rows with
  | nil => intro vals _; rfl
  | cons r rs ih =>
      intro vals hlen
      cases vals with
      | nil => simp at hlen
      | cons v vs =>
          simp only [List.zipWith, List.map_cons, List.cons.injEq, true_and]
          exact ih vs (by simpa using hlen)

theorem length_zipWith_rows {α β : Type} (f : List Val → α → β) :
    ∀ (rows : List (List Val)) (vals : List α), vals.length = rows.length →
      (List.zipWith f rows vals).length = rows.length := by
  intro rows vals hlen
  rw [List.length_zipWith, hlen]
  exact Nat.min_self _

theorem setMonthCol_preserves {t : Table} {vals : List Val} (hrect : Rect t)
    (hlen : vals.length = t.rows.length) :
    (setMonthCol t vals).rows.length = t.rows.length ∧
    ∀ name j, name ≠ "month" → colIdx? t name = some j →
      colIdx? (setMonthCol t vals) name = some j ∧
      dtypeAt (setMonthCol t vals) j = dtypeAt t j ∧
      colCells (setMonthCol t vals) j = colCells t j := by
  unfold setMonthCol
  cases hm : colIdx? t "month" with
  | some jm =>
      refine ⟨length_zipWith_rows _ _ _ hlen, ?_⟩
      intro name j hname hj
      have hjm : j ≠ jm := fun he =>
        hname (by rw [← nameAt_of_colIdx? hj, he, nameAt_of_colIdx? hm])
      have hnames : List.map Prod.fst (t.header.set jm ("month", Dtype.period))
          = List.map Prod.fst t.header := by
        rw [List.map_set]
        have : (("month", Dtype.period) : String × Dtype).1
            = (List.map Prod.fst t.header).getD jm hdrD.1 := by
          rcases Nat.lt_or_ge jm t.header.length with hlt | hge
          · rw [List.getD_eq_getElem _ _ (by simpa using hlt), List.getElem_map]
            show "month" = (t.header[jm]).1
            rw [show (t.header[jm]).1 = (t.header.getD jm hdrD).1 from by
              rw [List.getD_eq_getElem _ _ hlt]]
            exact (nameAt_of_colIdx? hm).symm
          · exact absurd (colIdx?_lt hm) (by omega)
        rw [this, set_getD_self]
      refine ⟨?_, ?_, ?_⟩
      · show colIdx? ⟨t.header.set jm ("month", Dtype.period), _⟩ name = some j
        rw [colIdx?_eq_names]
        show (List.map Prod.fst (t.header.set jm ("month", Dtype.period))).findIdx?
          (fun s => s == name) = some j
        rw [hnames]
        show (colNames t).findIdx? (fun s => s == name) = some j
        rw [← colIdx?_eq_names]
        exact hj
      · show ((t.header.set jm ("month", Dtype.period)).getD j hdrD).2
          = (t.header.getD j hdrD).2
        rw [getD_set_ne _ _ (fun he => hjm he.symm)]
      · show (List.zipWith (fun r v => r.set jm v) t.rows vals).map
            (fun r => r.getD j Val.na) = t.rows.map (fun r => r.getD j Val.na)
        rw [map_getD_zipWith_set (fun he => hjm he.symm), map_getD_zipWith_fst _ _ hlen]
  | none =>
      refine ⟨length_zipWith_rows _ _ _ hlen, ?_⟩
      intro name j hname hj
      refine ⟨?_, ?_, ?_⟩
      · show colIdx? ⟨t.header ++ [("month", Dtype.period)], _⟩ name = some j
        unfold colIdx?
        show (t.header ++ [("month", Dtype.period)]).findIdx?
          (fun hd => hd.1 == name) = some j
        rw [List.findIdx?_append]
        unfold colIdx? at hj
        rw [hj]
        rfl
      · show ((t.header ++ [("month", Dtype.period)]).getD j hdrD).2
          = (t.header.getD j hdrD).2
        rw [List.getD_append _ _ _ _ (colIdx?_lt hj)]
      · show (List.zipWith (fun r v => r ++ [v]) t.rows vals).map
            (fun r => r.getD j Val.na) = t.rows.map (fun r => r.getD j Val.na)
        rw [map_getD_zipWith_append _ _ (fun r hr => by
            rw [hrect r hr]; exact colIdx?_lt hj),
          map_getD_zipWith_fst _ _ hlen]

/-- `create_visualizations` changes at most the `month` column of the
DataFrame it is given: the row count and every column whose name is not
`month` (its position, dtype and cells) are exactly as before. -/
theorem createVisRunTable_preserves {t : Table} (hrect : Rect t) :
    (createVisRunTable t).rows.length = t.rows.length ∧
    ∀ name j, name ≠ "month" → colIdx? t name = some j →
      colIdx? (createVisRunTable t) name = some j ∧
      dtypeAt (createVisRunTable t) j = dtypeAt t j ∧
      colCells (createVisRunTable t) j = colCells t j := by
  unfold createVisRunTable
  split
  · split
    · cases hm : monthValsE t with
      | ok vals => exact setMonthCol_preserves hrect (monthValsE_length hm)
      | error u => exact ⟨rfl, fun name j _ hj => ⟨hj, rfl, rfl⟩⟩
    · exact ⟨rfl, fun name j _ hj => ⟨hj, rfl, rfl⟩⟩
  · exact ⟨rfl, fun name j _ hj => ⟨hj, rfl, rfl⟩⟩

/-! ### The object-level Cleaner never stores into its argument -/

/-- When the object-level `clean_dataset` succeeds, the caller's
DataFrame object still holds exactly the table it held before the call
(the line-60 copy shields it from every in-place store), and the
returned reference holds the value-level Cleaner's output. -/
theorem clean_datasetH_spec {h : Heap} {r : Nat} {df : Table}
    {h2 : Heap} {r2 : Nat}
    (hget : h[r]? = some df) (hrun : clean_datasetH h r = .ok (h2, r2)) :
    h2[r]? = some df ∧ ∃ c, clean_dataset df = .ok c ∧ h2[r2]? = some c := by
  have hrlt : r < h.length := by
    obtain ⟨hlt, _⟩ := List.getElem?_eq_some_iff.mp hget
    exact hlt
  unfold clean_datasetH at hrun
  rw [hget] at hrun
  cases e1 : filterByNotna df "continent" with
  | error u => simp only [e1] at hrun; exact absurd hrun (by simp)
  | ok t1 =>
  cases e2 : toDatetimeCol t1 "date" with
  | error u => simp only [e1, e2, halloc] at hrun; exact absurd hrun (by simp)
  | ok t2 =>
  cases e5 : filterByNotna (fillnaObject (fillnaNumeric t2)) "date" with
  | error u => simp only [e1, e2, e5, halloc] at hrun; exact absurd hrun (by simp)
  | ok t5 =>
  cases e6 : clipLower0 t5 "total_cases" with
  | error u => simp only [e1, e2, e5, e6, halloc] at hrun; exact absurd hrun (by simp)
  | ok t6 =>
  cases e7 : clipLower0 t6 "new_cases" with
  | error u =>
      simp only [e1, e2, e5, e6, e7, halloc] at hrun
      exact absurd hrun (by simp)
  | ok t7 =>
  simp only [e1, e2, e5, e6, e7, halloc, Except.ok.injEq, Prod.mk.injEq,
    List.length_append, List.length_set, List.length_cons, List.length_nil] at hrun
  obtain ⟨hh2, hr2⟩ := hrun
  have hclean : clean_dataset df = .ok t7 :=
    clean_ok_iff.mpr ⟨t1, t2, t5, t6, e1, e2, e5, e6, e7⟩
  -- lengths of the intermediate heaps
  have len1 : (h ++ [df]).length = h.length + 1 := by simp
  have len2 : ((h ++ [df]) ++ [t1]).length = h.length + 2 := by simp
  constructor
  · rw [← hh2]
    rw [List.getElem?_set_ne (by omega), List.getElem?_set_ne (by omega),
        List.getElem?_append_left (by simp [List.length_set]; omega),
        List.getElem?_set_ne (by omega), List.getElem?_set_ne (by omega),
        List.getElem?_set_ne (by omega),
        List.getElem?_append_left (by simp; omega),
        List.getElem?_append_left hrlt]
    exact hget
  · refine ⟨t7, hclean, ?_⟩
    rw [← hh2, ← hr2]
    rw [List.getElem?_set_self (by simp [List.length_set])]

/-! ### Derived facts about the clipped columns and the fills -/

theorem header_length_eq_of_names {t u : Table} (h : colNames u = colNames t) :
    u.header.length = t.header.length := by
  have := congrArg List.length h
  simpa [colNames] using this

/-- Under the loader's typing, the cleaned `total_cases` and `new_cases`
columns hold only non-negative numbers — never an absent cell. -/
theorem clean_clip_col_num {t c : Table} (h : clean_dataset t = .ok c)
    (hcsv : CsvTyped t) {name : String} {j : Nat}
    (hname : name = "total_cases" ∨ name = "new_cases")
    (hj : colIdx? c name = some j) :
    ∀ r ∈ c.rows, ∃ q, r.getD j Val.na = .num q ∧ 0 ≤ q := by
  obtain ⟨nc, _, _, _, _, _, ⟨jt, hjtc, cct⟩, ⟨jn, hjnc, ccn⟩⟩ := clean_facts h
  obtain ⟨_, ⟨jd, hjdc, dtc2, dt_ne, qc⟩, numc, objc⟩ := clean_csv_facts h hcsv
  have hjlt : j < c.header.length := colIdx?_lt hj
  have hcl : ColClipped c j := by
    rcases hname with rfl | rfl
    · rw [hjtc] at hj
      cases Option.some.inj hj
      exact cct
    · rw [hjnc] at hj
      cases Option.some.inj hj
      exact ccn
  intro r hr
  rcases hcl r hr with ⟨q, hq, hq0⟩ | hna
  · exact ⟨q, hq, hq0⟩
  · exfalso
    by_cases hjd : j = jd
    · subst hjd
      obtain ⟨y, m, d, hcell, _⟩ := qc r hr
      rw [hna] at hcell
      cases hcell
    · have hjt : j < t.header.length := by
        rw [← header_length_eq_of_names nc]
        exact hjlt
      have hmem : t.header.getD j hdrD ∈ t.header := by
        rw [List.getD_eq_getElem _ _ hjt]
        exact List.getElem_mem _
      cases hdt : dtypeAt c j with
      | float64 =>
          have := numc j (Or.inl hdt) r hr
          rw [hna] at this
          simp [Val.isNum] at this
      | int64 =>
          have := numc j (Or.inr hdt) r hr
          rw [hna] at this
          simp [Val.isNum] at this
      | object =>
          have := objc j hjlt hdt r hr
          rw [hna] at this
          simp [Val.isStr] at this
      | datetime =>
          have hdtt : dtypeAt t j = .datetime := by rw [← dt_ne j hjd]; exact hdt
          exact (hcsv.1 _ hmem).1 hdtt
      | period =>
          have hdtt : dtypeAt t j = .period := by rw [← dt_ne j hjd]; exact hdt
          exact (hcsv.1 _ hmem).2 hdtt

/-- A clip store never disturbs a zero cell: at another position it is
untouched, and at its own position the zero clips to itself. -/
theorem getD_set_clip_num0 (r : List Val) (j k : Nat)
    (hk : r.getD k Val.na = .num 0) :
    (r.set j ((clipCell (r.getD j Val.na)).getD Val.na)).getD k Val.na = .num 0 := by
  rw [getD_set_cases]
  split
  · rename_i hc
    obtain ⟨rfl, _⟩ := hc
    rw [hk]
    simp [clipCell, max_self]
  · exact hk

/-- Provenance of the fill defaults: every cleaned row comes from an
input row, and where that input row had an absent cell, the cleaned row
holds `0` (numeric-dtype column) or `"Unknown"` (object-dtype
column). -/
theorem clean_fill_provenance {t c : Table} (h : clean_dataset t = .ok c)
    (hcsv : CsvTyped t) :
    ∀ rr ∈ c.rows, ∃ r0 ∈ t.rows, ∀ k, k < c.header.length →
      r0.getD k Val.na = .na →
      ((dtypeAt c k = .float64 ∨ dtypeAt c k = .int64) → rr.getD k Val.na = .num 0) ∧
      (dtypeAt c k = .object → rr.getD k Val.na = .str "Unknown") := by
  obtain ⟨t1, t2, t5, t6, h1, h2, h5, h6, h7⟩ := clean_ok_iff.mp h
  obtain ⟨jc, hjc, hh1, hr1⟩ := filterByNotna_ok h1
  obtain ⟨jd, hjd, hall2, hh2, hr2⟩ := toDatetimeCol_ok h2
  obtain ⟨jd5, hjd5, hh5, hr5⟩ := filterByNotna_ok h5
  obtain ⟨jt, hjt, hall6, hh6, hr6⟩ := clipLower0_ok h6
  obtain ⟨jn, hjn, hall7, hh7, hr7⟩ := clipLower0_ok h7
  have sub1 : ∀ r ∈ t1.rows, r ∈ t.rows := by
    intro r hr
    rw [hr1] at hr
    exact (List.mem_filter.mp hr).1
  have l1 : t1.header.length = t.header.length := by rw [hh1]
  have l2 : t2.header.length = t1.header.length := by rw [hh2, List.length_set]
  have lc2 : c.header.length = t2.header.length := by
    rw [hh7, hh6, hh5]
    rfl
  have dt2 : dtypeAt t2 jd = .datetime := by
    show (t2.header.getD jd hdrD).2 = .datetime
    rw [hh2, getD_set_lt _ _ (colIdx?_lt hjd)]
  have dtc : dtypeAt c jd = .datetime := by
    show (c.header.getD jd hdrD).2 = .datetime
    rw [hh7, hh6, hh5]
    exact dt2
  have dt_ne : ∀ k, k ≠ jd → dtypeAt c k = dtypeAt t k := by
    intro k hk
    show (c.header.getD k hdrD).2 = (t.header.getD k hdrD).2
    rw [hh7, hh6, hh5]
    show (t2.header.getD k hdrD).2 = _
    rw [hh2, getD_set_ne _ _ (fun he => hk (he.symm)), hh1]
  have dt2k : ∀ k, k ≠ jd → dtypeAt t2 k = dtypeAt t k := by
    intro k hk
    show (t2.header.getD k hdrD).2 = (t.header.getD k hdrD).2
    rw [hh2, getD_set_ne _ _ (fun he => hk (he.symm)), hh1]
  intro rr hrr
  rw [hr7] at hrr
  obtain ⟨r6, hr6m, rfl⟩ := List.mem_map.mp hrr
  rw [hr6] at hr6m
  obtain ⟨r5, hr5m, rfl⟩ := List.mem_map.mp hr6m
  have hr5t4 : r5 ∈ (fillnaObject (fillnaNumeric t2)).rows := by
    rw [hr5] at hr5m
    exact (List.mem_filter.mp hr5m).1
  simp only [fillnaObject, List.mem_map] at hr5t4
  obtain ⟨r3, hr3m, hr5eq⟩ := hr5t4
  simp only [fillnaNumeric, List.mem_map] at hr3m
  obtain ⟨rb, hrbm, hr3eq⟩ := hr3m
  rw [hr2] at hrbm
  obtain ⟨r1, hr1m, hrbeq⟩ := List.mem_map.mp hrbm
  refine ⟨r1, sub1 r1 hr1m, ?_⟩
  intro k hk hna
  have hlen1 : r1.length = t.header.length := (hcsv.2 r1 (sub1 r1 hr1m)).1
  have hkc2 : k < t2.header.length := by rw [← lc2]; exact hk
  have hkrb : k < rb.length := by
    rw [← hrbeq, List.length_set, hlen1, ← l1, ← l2]
    exact hkc2
  have hkr3 : k < r3.length := by
    rw [← hr3eq, List.length_zipWith]
    exact lt_min hkc2 hkrb
  have hkjd_of : dtypeAt c k ≠ .datetime → k ≠ jd := by
    intro hne he
    rw [he] at hne
    exact hne dtc
  constructor
  · intro hdtn
    have hkjd : k ≠ jd := hkjd_of (by rcases hdtn with hq | hq <;> rw [hq] <;> simp)
    have hdtt2 : dtypeAt t2 k = .float64 ∨ dtypeAt t2 k = .int64 := by
      rw [dt2k k hkjd, ← dt_ne k hkjd]
      exact hdtn
    have crb : rb.getD k Val.na = Val.na := by
      rw [← hrbeq, getD_set_ne _ _ (fun he => hkjd he.symm)]
      exact hna
    have cr3 : r3.getD k Val.na = .num 0 := by
      rw [← hr3eq, fillnaNumeric_cell, if_pos ⟨hkc2, hkrb⟩, crb]
      rcases hdtt2 with hq | hq <;> rw [hq] <;> rfl
    have cr5 : r5.getD k Val.na = .num 0 := by
      rw [← hr5eq, fillnaObject_cell, if_pos ⟨hkc2, hkr3⟩, cr3]
      exact fillCellObj_of_nonNa rfl
    exact getD_set_clip_num0 _ jn k (getD_set_clip_num0 r5 jt k cr5)
  · intro hdto
    have hkjd : k ≠ jd := hkjd_of (by rw [hdto]; simp)
    have hdtt2 : dtypeAt t2 k = .object := by
      rw [dt2k k hkjd, ← dt_ne k hkjd]
      exact hdto
    have crb : rb.getD k Val.na = Val.na := by
      rw [← hrbeq, getD_set_ne _ _ (fun he => hkjd he.symm)]
      exact hna
    have cr3 : r3.getD k Val.na = Val.na := by
      rw [← hr3eq, fillnaNumeric_cell, if_pos ⟨hkc2, hkrb⟩, crb, hdtt2]
      rfl
    have cr5 : r5.getD k Val.na = .str "Unknown" := by
      rw [← hr5eq, fillnaObject_cell, if_pos ⟨hkc2, hkr3⟩, cr3,
        show dtypeAt (fillnaNumeric t2) k = Dtype.object from hdtt2]
      rfl
    have hkjt : jt ≠ k := by
      intro he
      have hg := hall6 r5 hr5m
      rw [he, cr5] at hg
      simp [clipCell] at hg
    have c6 : (r5.set jt ((clipCell (r5.getD jt Val.na)).getD Val.na)).getD k Val.na
        = .str "Unknown" := by
      rw [getD_set_ne _ _ hkjt]
      exact cr5
    have hmem6 : r5.set jt ((clipCell (r5.getD jt Val.na)).getD Val.na) ∈ t6.rows := by
      rw [hr6]
      exact List.mem_map_of_mem _ hr5m
    have hkjn : jn ≠ k := by
      intro he
      have hg := hall7 _ hmem6
      rw [he, c6] at hg
      simp [clipCell] at hg
    rw [getD_set_ne _ _ hkjn]
    exact c6

/-! ### The claims -/

/-- Claim C1, counterexample: the claim says a row whose date value
fails to parse does not make the Cleaner fail and the remaining rows are
returned; but on `exC1bad` — whose first row has the unparseable date
string `"not-a-date"` and whose second row is fully valid — the Cleaner
ends in its fatal branch (`pd.to_datetime` raises with its default
`errors='raise'`, and the `except` calls `sys.exit(1)`), returning no
table at all. -/
theorem claim_C1_counterexample : clean_dataset exC1bad = .error () := by decide

/-- Claim C1, amended: a date string that fails to parse makes the
Cleaner fail fatally (first conjunct, in general: whenever a row
surviving the continent filter carries an unparseable date cell, the run
ends in the fatal branch); only a row whose date value is absent is
handled as the claim describes — the absent date stays absent at step 2
and the row is dropped at step 5, the Cleaner returning the remaining
rows (second conjunct, on the concrete table `exC1na`). -/
theorem claim_C1_bad_date_fatal_absent_dropped :
    (∀ (t t1 : Table) (j : Nat),
      filterByNotna t "continent" = .ok t1 →
      colIdx? t1 "date" = some j →
      (∃ r ∈ t1.rows, toDTcell (r.getD j Val.na) = none) →
      clean_dataset t = .error ()) ∧
    clean_dataset exC1na = .ok exC1naOut := by
  refine ⟨fun t t1 j h1 hj hbad => clean_error_of_bad_date h1 hj hbad, by decide⟩

/-- Claim C1, witness for the amended theorem: instantiating the fatal
branch at `exC1bad` (the continent filter keeps both rows, the date
column is at position 2, and the first row's date cell does not parse),
and the drop branch at `exC1na`. -/
theorem claim_C1_witness :
    clean_dataset exC1bad = .error () ∧ clean_dataset exC1na = .ok exC1naOut :=
  ⟨claim_C1_bad_date_fatal_absent_dropped.1 exC1bad exC1bad 2 (by decide) (by decide)
      ⟨[.str "Europe", .str "France", .str "not-a-date", .num 50, .num 5],
        by decide, by decide⟩,
    claim_C1_bad_date_fatal_absent_dropped.2⟩

/-- Claim C2, counterexample: the claim says running the Analyzer and
the Visualizer leaves the cleaned table exactly as the Cleaner produced
it; but starting from a heap holding the cleaned-shaped table `tviz`,
running the Analyzer (which leaves the heap unchanged) and then the
Visualizer leaves the caller's DataFrame different from `tviz` — line
201 (`df['month'] = df['date'].dt.to_period('M')`) has added a `month`
column to it. -/
theorem claim_C2_counterexample :
    (create_visualizationsH (perform_analysisH [tviz] 0).1 0)[0]? ≠ some tviz := by
  decide

/-- Claim C2, amended: the Analyzer reads the table and leaves the heap
unchanged; the Visualizer stores back into the caller's object, but the
stored table differs from the original at most in the `month` column —
the row count and every other column's position, dtype and cells are
exactly as the Cleaner produced them. -/
theorem claim_C2_analyzer_reads_visualizer_adds_month :
    (∀ (h : Heap) (r : Nat), (perform_analysisH h r).1 = h) ∧
    (∀ (h : Heap) (r : Nat) (t : Table), h[r]? = some t →
      create_visualizationsH h r = h.set r (createVisRunTable t)) ∧
    (∀ t : Table, Rect t →
      (createVisRunTable t).rows.length = t.rows.length ∧
      ∀ name j, name ≠ "month" → colIdx? t name = some j →
        colIdx? (createVisRunTable t) name = some j ∧
        dtypeAt (createVisRunTable t) j = dtypeAt t j ∧
        colCells (createVisRunTable t) j = colCells t j) := by
  refine ⟨fun h r => rfl, ?_, fun t hrect => createVisRunTable_preserves hrect⟩
  intro h r t hget
  unfold create_visualizationsH
  rw [hget]

/-- Claim C2, witness for the amended theorem: at `tviz` the Visualizer
keeps the row count and keeps the `total_cases` column (position 2)
untouched. -/
theorem claim_C2_witness :
    (createVisRunTable tviz).rows.length = tviz.rows.length ∧
    colCells (createVisRunTable tviz) 2 = colCells tviz 2 :=
  ⟨(claim_C2_analyzer_reads_visualizer_adds_month.2.2 tviz (by decide)).1,
    ((claim_C2_analyzer_reads_visualizer_adds_month.2.2 tviz (by decide)).2
      "total_cases" 2 (by decide) (by decide)).2.2⟩

/-- Claim C3: the Cleaner is idempotent — on any table where it
succeeds, running it again on its own output succeeds and returns that
output unchanged (no further row removal, no value change). -/
theorem claim_C3_cleaner_idempotent :
    ∀ t c : Table, clean_dataset t = .ok c → clean_dataset c = .ok c :=
  fun _ _ h => clean_dataset_idem h

/-- Claim C3, witness: the cleaned form of `exC1na` cleans to itself. -/
theorem claim_C3_witness : clean_dataset exC1naOut = .ok exC1naOut :=
  claim_C3_cleaner_idempotent exC1na exC1naOut (by decide)

/-- Claim C4: on any loader-typed table where the Cleaner succeeds,
every cell of the cleaned `total_cases` and `new_cases` columns is a
non-negative number. -/
theorem claim_C4_clip_nonneg :
    ∀ (t c : Table), clean_dataset t = .ok c → CsvTyped t →
    ∀ (name : String) (j : Nat), (name = "total_cases" ∨ name = "new_cases") →
    colIdx? c name = some j →
    ∀ r ∈ c.rows, ∃ q, r.getD j Val.na = .num q ∧ 0 ≤ q :=
  fun _ _ h hcsv _ _ hname hj => clean_clip_col_num h hcsv hname hj

/-- Claim C4, witness: the spec's scenario row with total_cases = −5
and new_cases = −3 is kept, both cells clipped to 0 (and, per the
theorem, non-negative numbers). -/
theorem claim_C4_witness :
    clean_dataset exNeg = .ok exNegOut ∧
    (∃ q, exNegRow.getD 3 Val.na = .num q ∧ 0 ≤ q) ∧
    (∃ q, exNegRow.getD 4 Val.na = .num q ∧ 0 ≤ q) :=
  ⟨by decide,
    claim_C4_clip_nonneg exNeg exNegOut (by decide) (by decide) "total_cases" 3
      (Or.inl rfl) (by decide) exNegRow (by decide),
    claim_C4_clip_nonneg exNeg exNegOut (by decide) (by decide) "new_cases" 4
      (Or.inr rfl) (by decide) exNegRow (by decide)⟩

/-- Claim C5: on any loader-typed table where the Cleaner succeeds,
every cleaned row has a present continent and a valid parsed calendar
date. -/
theorem claim_C5_required_fields :
    ∀ (t c : Table), clean_dataset t = .ok c → CsvTyped t →
    (∃ jc, colIdx? c "continent" = some jc ∧
      ∀ r ∈ c.rows, (r.getD jc Val.na).isNa = false) ∧
    (∃ jd, colIdx? c "date" = some jd ∧
      ∀ r ∈ c.rows, ∃ y m d, r.getD jd Val.na = .date y m d ∧ ValidYmd y m d) := by
  intro t c h hcsv
  obtain ⟨_, _, _, _, ⟨jc, hjcc, cnc⟩, _, _, _⟩ := clean_facts h
  obtain ⟨_, ⟨jd, hjdc, _, _, qc⟩, _, _⟩ := clean_csv_facts h hcsv
  exact ⟨⟨jc, hjcc, cnc⟩, ⟨jd, hjdc, qc⟩⟩

/-- Claim C5, witness: the spec's World/France scenario — cleaning
`ex5` yields only the France row, whose continent is present and whose
date is the valid parsed 2021-01-01. -/
theorem claim_C5_witness :
    clean_dataset ex5 = .ok ex5Out ∧
    ((ex5Out.rows.getD 0 []).getD 0 Val.na).isNa = false ∧
    (∃ y m d, (ex5Out.rows.getD 0 []).getD 2 Val.na = .date y m d ∧ ValidYmd y m d) := by
  have H := claim_C5_required_fields ex5 ex5Out (by decide) (by decide)
  obtain ⟨⟨jc, hjc, hcont⟩, ⟨jd, hjd, hdate⟩⟩ := H
  have hjc0 : jc = 0 := by
    have : colIdx? ex5Out "continent" = some 0 := by decide
    rw [this] at hjc
    exact (Option.some.inj hjc).symm
  have hjd2 : jd = 2 := by
    have : colIdx? ex5Out "date" = some 2 := by decide
    rw [this] at hjd
    exact (Option.some.inj hjd).symm
  subst hjc0
  subst hjd2
  exact ⟨by decide, hcont _ (by decide), hdate _ (by decide)⟩

/-- Claim C6: on any loader-typed table where the Cleaner succeeds,
numeric-dtype columns of the cleaned table hold only numbers and
object-dtype columns hold only strings (no absent value remains), and
— provenance of the defaults — every cleaned row comes from an input
row whose absent numeric cells now read 0 and whose absent categorical
cells now read `"Unknown"`. -/
theorem claim_C6_fill_defaults :
    ∀ (t c : Table), clean_dataset t = .ok c → CsvTyped t →
    (∀ k, (dtypeAt c k = .float64 ∨ dtypeAt c k = .int64) →
      ∀ r ∈ c.rows, (r.getD k Val.na).isNum = true) ∧
    (∀ k, k < c.header.length → dtypeAt c k = .object →
      ∀ r ∈ c.rows, (r.getD k Val.na).isStr = true) ∧
    (∀ rr ∈ c.rows, ∃ r0 ∈ t.rows, ∀ k, k < c.header.length →
      r0.getD k Val.na = .na →
      ((dtypeAt c k = .float64 ∨ dtypeAt c k = .int64) → rr.getD k Val.na = .num 0) ∧
      (dtypeAt c k = .object → rr.getD k Val.na = .str "Unknown")) := by
  intro t c h hcsv
  obtain ⟨_, _, numc, objc⟩ := clean_csv_facts h hcsv
  exact ⟨numc, objc, clean_fill_provenance h hcsv⟩

/-- Claim C6, witness: the spec's scenario — a row with an absent
`reproduction_rate` (float64) and an absent `tests_units` (object) is
cleaned to hold 0 and `"Unknown"` there. -/
theorem claim_C6_witness :
    clean_dataset exC6 = .ok exC6Out ∧
    exC6Row.getD 5 Val.na = .num 0 ∧
    exC6Row.getD 6 Val.na = .str "Unknown" := by
  have H := (claim_C6_fill_defaults exC6 exC6Out (by decide) (by decide)).2.2
  obtain ⟨r0, hr0, hprop⟩ := H exC6Row (by decide)
  have hr0e : r0 = [Val.str "Asia", Val.str "Xland", Val.str "2021-03-04",
      Val.num 7, Val.num 2, Val.na, Val.na] := by
    have : exC6.rows = [[Val.str "Asia", Val.str "Xland", Val.str "2021-03-04",
      Val.num 7, Val.num 2, Val.na, Val.na]] := rfl
    rw [this] at hr0
    simpa using hr0
  subst hr0e
  exact ⟨by decide,
    (hprop 5 (by decide) (by decide)).1 (Or.inl (by decide)),
    (hprop 6 (by decide) (by decide)).2 (by decide)⟩

/-- Claim C7: the Cleaner does not modify its input — at the object
level, after a successful `clean_dataset` call the caller's DataFrame
object holds exactly the table it held before, while the returned
object holds the cleaned table. -/
theorem claim_C7_cleaner_preserves_caller :
    ∀ (h : Heap) (r : Nat) (df : Table) (h2 : Heap) (r2 : Nat),
    h[r]? = some df → clean_datasetH h r = .ok (h2, r2) →
    h2[r]? = some df ∧ ∃ c, clean_dataset df = .ok c ∧ h2[r2]? = some c :=
  fun _ _ _ _ _ hget hrun => clean_datasetH_spec hget hrun

/-- Claim C7, witness: cleaning the heap `[ex5]` through object
semantics leaves cell 0 holding the raw `ex5` and returns reference 3
holding the cleaned table. -/
theorem claim_C7_witness :
    [ex5, ex5, ex5Out, ex5Out][0]? = some ex5 ∧
    ∃ c, clean_dataset ex5 = .ok c ∧ [ex5, ex5, ex5Out, ex5Out][3]? = some c :=
  claim_C7_cleaner_preserves_caller [ex5] 0 ex5 [ex5, ex5, ex5Out, ex5Out] 3
    (by decide) (by decide)

/-- Claim C8: the Analyzer never raises and never exits — it is a total
function that either returns `none` (the caught-error branch, after
printing a diagnostic) or returns the mapping holding the mean, median
and maximum of `new_cases`, the maximum of `total_cases`, and the data
of the `new_cases`/`new_deaths` correlation matrix. -/
theorem claim_C8_analyzer_total :
    ∀ t : Table,
      perform_analysis t = none ∨
      ∃ s, perform_analysis t = some s ∧
        colMeanE t "new_cases" = .ok s.mean_cases ∧
        colMedianE t "new_cases" = .ok s.median_cases ∧
        colMaxE t "new_cases" = .ok s.max_cases ∧
        colMaxE t "total_cases" = .ok s.total_cases ∧
        corrPairsE t = .ok s.correlation := by
  intro t
  cases hc : computeStats t with
  | error u =>
      left
      simp [perform_analysis, hc, Except.toOption]
  | ok s =>
      right
      obtain ⟨h1, h2, h3, h4, h5, _⟩ := computeStats_ok_iff.mp hc
      exact ⟨s, by simp [perform_analysis, hc, Except.toOption], h1, h2, h3, h4, h5⟩

/-- Claim C9: the top-10 list is ranked by each location's maximum
`total_cases`, sorted descending by that value, holds at most ten
entries, and holds fewer than ten exactly when fewer distinct locations
exist (its length is the minimum of 10 and the number of distinct
location keys). -/
theorem claim_C9_top10 :
    ∀ (t : Table) (l : List (String × ℚ)), topCountriesE t = .ok l →
    l.length ≤ 10 ∧
    List.Pairwise (fun a b => b.2 ≤ a.2) l ∧
    ∃ keys, locKeysE t = .ok keys ∧ l.length = min 10 keys.length ∧
      ∀ p ∈ l, p.1 ∈ keys ∧ locMaxE t p.1 = .ok p.2 := by
  intro t l h
  obtain ⟨keys, hk, hall, rfl⟩ := topCountriesE_ok h
  have hlen : ((insSort descByValB
      (keys.map (fun k => (k, ((locMaxE t k).toOption).getD 0)))).take 10).length
      = min 10 keys.length := by
    rw [List.length_take, length_insSort, List.length_map]
  refine ⟨by rw [hlen]; exact Nat.min_le_left _ _, ?_, keys, hk, hlen, ?_⟩
  · have hp := pairwise_insSort descByValB_total descByValB_trans
      (keys.map (fun k => (k, ((locMaxE t k).toOption).getD 0)))
    have hsub := List.take_sublist 10 (insSort descByValB
      (keys.map (fun k => (k, ((locMaxE t k).toOption).getD 0))))
    exact (List.Pairwise.sublist hsub hp).imp (fun hab => of_decide_eq_true hab)
  · intro p hp
    have hp2 : p ∈ insSort descByValB
        (keys.map (fun k => (k, ((locMaxE t k).toOption).getD 0))) :=
      List.take_subset _ _ hp
    rw [mem_insSort] at hp2
    obtain ⟨k, hkm, hpk⟩ := List.mem_map.mp hp2
    obtain ⟨v, hv⟩ := exceptIsOk_iff.mp (hall k hkm)
    rw [← hpk]
    refine ⟨hkm, ?_⟩
    rw [hv]
    rfl

/-- Claim C9, witness: on the two-location table `exViz2` the result is
`[(Bria, 7), (Alba, 5)]`, within the size bound and sorted descending. -/
theorem claim_C9_witness :
    topCountriesE exViz2 = .ok [("Bria", (7 : ℚ)), ("Alba", 5)] ∧
    [("Bria", (7 : ℚ)), ("Alba", 5)].length ≤ 10 ∧
    List.Pairwise (fun a b : String × ℚ => b.2 ≤ a.2)
      [("Bria", (7 : ℚ)), ("Alba", 5)] :=
  ⟨by decide,
    (claim_C9_top10 exViz2 [("Bria", (7 : ℚ)), ("Alba", 5)] (by decide)).1,
    (claim_C9_top10 exViz2 [("Bria", (7 : ℚ)), ("Alba", 5)] (by decide)).2.1⟩

/-- Claim C10: on any loader-typed table with a numeric `new_deaths`
column where the Cleaner succeeds, `new_deaths` is never absent in the
cleaned table — every cell is a number — and the correlation data over
`new_cases` and `new_deaths` keeps every row (no pair is skipped for an
absent value). -/
theorem claim_C10_new_deaths_filled :
    ∀ (t c : Table), clean_dataset t = .ok c → CsvTyped t →
    ∀ j, colIdx? t "new_deaths" = some j →
    (dtypeAt t j = .float64 ∨ dtypeAt t j = .int64) →
    colIdx? c "new_deaths" = some j ∧
    (∀ r ∈ c.rows, (r.getD j Val.na).isNum = true) ∧
    ∃ pairs, corrPairsE c = .ok pairs ∧ pairs.length = c.rows.length := by
  intro t c h hcsv j hj hdt
  obtain ⟨nc, _, _, _, _, _, _, ⟨jn, hjnc, _⟩⟩ := clean_facts h
  obtain ⟨_, ⟨jd, hjdc, dtc, dt_ne, _⟩, numc, _⟩ := clean_csv_facts h hcsv
  have hjc : colIdx? c "new_deaths" = some j := by
    rw [colIdx?_congr nc]
    exact hj
  have hkjd : j ≠ jd := colIdx?_ne hjc hjdc (by decide)
  have hdtc : dtypeAt c j = .float64 ∨ dtypeAt c j = .int64 := by
    rw [dt_ne j hkjd]
    exact hdt
  have hnd : ∀ r ∈ c.rows, (r.getD j Val.na).isNum = true := numc j hdtc
  have hncnum : ∀ r ∈ c.rows, ∃ q, r.getD jn Val.na = .num q ∧ 0 ≤ q :=
    clean_clip_col_num h hcsv (Or.inr rfl) hjnc
  have e1 : colValsE c "new_cases" = .ok (colCells c jn) := by
    unfold colValsE
    rw [hjnc]
  have e2 : colValsE c "new_deaths" = .ok (colCells c j) := by
    unfold colValsE
    rw [hjc]
  refine ⟨hjc, hnd, ((colCells c jn).zip (colCells c j)).filterMap corrCell, ?_, ?_⟩
  · simp [corrPairsE, bind, Except.bind, e1, e2]
  · rw [corrPairs_full _ _ ?_ ?_]
    · simp [colCells]
    · intro v hv
      simp only [colCells, List.mem_map] at hv
      obtain ⟨r, hr, rfl⟩ := hv
      obtain ⟨q, hq, _⟩ := hncnum r hr
      rw [hq]
      rfl
    · intro v hv
      simp only [colCells, List.mem_map] at hv
      obtain ⟨r, hr, rfl⟩ := hv
      exact hnd r hr

/-- Claim C10, witness: on `exRaw10` (a float64 `new_deaths` with an
absent first value) the cleaned `new_deaths` column is 0 and 1, and the
correlation data keeps both rows. -/
theorem claim_C10_witness :
    clean_dataset exRaw10 = .ok exRaw10Out ∧
    colIdx? exRaw10Out "new_deaths" = some 5 ∧
    ∃ pairs, corrPairsE exRaw10Out = .ok pairs ∧
      pairs.length = exRaw10Out.rows.length := by
  have H := claim_C10_new_deaths_filled exRaw10 exRaw10Out (by decide) (by decide) 5
    (by decide) (Or.inl (by decide))
  exact ⟨by decide, H.1, H.2.2⟩

end Covid
